import Mathlib

/-!
Verification of the timeline query-and-layout engine in `src/app/main.py`
(`SystemsEngineeringandAssuranceProgram`).  The Python code is shallowly
embedded: dates are a record of numerals, the JSON dataset is a list of
key/value pairs whose values are either a station-shaped mapping or a scalar,
and every fallible operation (a `strptime` failure, an attribute error on a
scalar, `min` of an empty sequence) is modelled with `Option`.
-/

namespace Seap

/-! ### Date utilities -/

/-- A calendar date as held by a Python `datetime` (time of day is
abstracted to midnight; only day-granularity comparisons occur in the
engine). -/
structure DateT where
  year : Nat
  month : Nat
  day : Nat
deriving DecidableEq, Repr

/-- Proleptic-Gregorian leap-year rule, as used by `datetime`. -/
def isLeap (y : Nat) : Bool :=
  (y % 4 == 0 && y % 100 != 0) || y % 400 == 0

/-- Number of days in a month, as validated by the `datetime` constructor. -/
def daysInMonth (y m : Nat) : Nat :=
  if m = 2 then (if isLeap y then 29 else 28)
  else if m = 4 ∨ m = 6 ∨ m = 9 ∨ m = 11 then 30
  else 31

/-- The `datetime(year, month, day)` constructor accepts exactly these
component values (with the year capped at 9999). -/
def validDateB (dt : DateT) : Bool :=
  1 ≤ dt.year && dt.year ≤ 9999 &&
  1 ≤ dt.month && dt.month ≤ 12 &&
  1 ≤ dt.day && dt.day ≤ daysInMonth dt.year dt.month

/-- Numeric value of a decimal digit character. -/
def digitVal (c : Char) : Nat := c.toNat - 48

/-- Value of a big-endian list of decimal digit characters. -/
def natOfDigits (l : List Char) : Nat :=
  l.foldl (fun a c => 10 * a + digitVal c) 0

/--
`datetime.strptime(s, "%Y-%m-%d")` as called by `parse_date`
(src/app/main.py line 60).  CPython's `_strptime` matches `%Y` against
exactly four digits, `%m` against one or two digits forming `1..12`
(a leading zero optional, `"00"` refused) and `%d` against one or two
digits forming `1..31`, requires the whole string to be consumed, and the
`datetime` constructor then rejects a day that does not exist in the given
month or a year below 1.
-/
def parseDateChars : List Char → Option DateT
  | y1 :: y2 :: y3 :: y4 :: c :: rest =>
    if y1.isDigit && y2.isDigit && y3.isDigit && y4.isDigit && c == '-' then
      let y := natOfDigits [y1, y2, y3, y4]
      let ms := rest.takeWhile Char.isDigit
      match rest.dropWhile Char.isDigit with
      | c2 :: rest2 =>
        if c2 == '-' then
          let ds := rest2.takeWhile Char.isDigit
          if rest2.dropWhile Char.isDigit = ([] : List Char) then
            if 1 ≤ ms.length && ms.length ≤ 2 && 1 ≤ ds.length && ds.length ≤ 2 then
              let m := natOfDigits ms
              let d := natOfDigits ds
              if 1 ≤ y && 1 ≤ m && m ≤ 12 && 1 ≤ d && d ≤ daysInMonth y m then
                some ⟨y, m, d⟩
              else none
            else none
          else none
        else none
      | [] => none
    else none
  | _ => none

/-- `self.parse_date` (src/app/main.py lines 58-60): just
`datetime.strptime(date_str, "%Y-%m-%d")`, raising `ValueError`
(`InvalidDateFormat`) on a non-matching string. -/
def parse_date (s : String) : Option DateT := parseDateChars s.data

/-- The decimal digit character for `n % 10`. -/
def digitChar (n : Nat) : Char := Char.ofNat (48 + n % 10)

/-- Two-digit zero-padded rendering (of `n % 100`). -/
def pad2 (n : Nat) : List Char := [digitChar (n / 10), digitChar n]

/-- Four-digit zero-padded rendering (of `n % 10000`). -/
def pad4 (n : Nat) : List Char :=
  [digitChar (n / 1000), digitChar (n / 100), digitChar (n / 10), digitChar n]

/-- The canonical strict `YYYY-MM-DD` rendering of a date, as produced by
`datetime.strftime("%Y-%m-%d")` and as written throughout the JSON schema
documented in the source docstring. -/
def fmtDate (dt : DateT) : String :=
  ⟨pad4 dt.year ++ '-' :: (pad2 dt.month ++ '-' :: pad2 dt.day)⟩

/-- Python string `<=` restricted to the character lists of two strings:
lexicographic comparison by code point. -/
def lexLe : List Char → List Char → Bool
  | [], _ => true
  | _ :: _, [] => false
  | a :: as, b :: bs => if a < b then true else if a = b then lexLe as bs else false

/-- Python string comparison `s <= t`. -/
def strLe (s t : String) : Bool := lexLe s.data t.data

/-- Lexicographic (componentwise) comparison of dates, exactly how Python
compares two `datetime` values. -/
def dateLt (a b : DateT) : Bool :=
  a.year < b.year ||
    (a.year == b.year &&
      (a.month < b.month || (a.month == b.month && a.day < b.day)))

/-- `a <= b` on `datetime` values. -/
def dateLe (a b : DateT) : Bool := dateLt a b || a == b

/-- A date collapsed to one numeral; for valid dates this agrees with the
componentwise order. -/
def dateVal (dt : DateT) : Nat := dt.year * 10000 + dt.month * 100 + dt.day

/-- Days in the months of `y` strictly before month `m`. -/
def daysBeforeMonth (y m : Nat) : Nat :=
  (List.range (m - 1)).foldl (fun a k => a + daysInMonth y (k + 1)) 0

/-- `datetime.toordinal`: day number in the proleptic Gregorian calendar,
with `0001-01-01` mapped to day 1. -/
def toDays (dt : DateT) : Int :=
  365 * ((dt.year : Int) - 1)
    + ((dt.year - 1) / 4 : Nat) - ((dt.year - 1) / 100 : Nat) + ((dt.year - 1) / 400 : Nat)
    + daysBeforeMonth dt.year dt.month + dt.day

/-- `(b - a).days` for two midnight `datetime` values. -/
def daysBetween (a b : DateT) : Int := toDays b - toDays a

/-! ### Dataset model

The JSON file is a mapping; its values are station-shaped mappings from
portion names to `{"stages": [...]}` records, except for the `"$schema"`
metadata entry whose value is a scalar.  The engine reads it as loaded by
`json.load`, so a top-level value may or may not be a mapping. -/

structure Milestone where
  name : String
  date : String
  status : String
deriving DecidableEq, Repr

structure Stage where
  name : String
  start : String
  «end» : String
  status : String
  milestones : List Milestone
deriving DecidableEq, Repr

/-- A top-level JSON value: either a station-shaped mapping
(portion name ↦ list of stages, the `"stages"` field inlined) or a
non-mapping scalar such as the `"$schema"` URL string. -/
inductive StationVal where
  | mapping (portions : List (String × List Stage))
  | scalar (s : String)
deriving DecidableEq, Repr

/-- `self.data`: the loaded JSON object, in insertion order. -/
abbrev Dataset : Type := List (String × StationVal)

/-- Python `dict` key lookup on the model. -/
def lookupStation (data : Dataset) (s : String) : Option StationVal :=
  ((List.find? (fun e => e.1 == s) data)).map Prod.snd

/-- Every non-`"$schema"` top-level value is a station-shaped mapping, so
no traversal hits an attribute error. -/
def wellFormedB : Dataset → Bool
  | [] => true
  | (_, StationVal.mapping _) :: rest => wellFormedB rest
  | (name, StationVal.scalar _) :: rest => (name == "$schema") && wellFormedB rest

/-! ### Query engine -/

/-- `get_all_portions` (src/app/main.py lines 62-70): flattened
`(station, portion)` pairs, skipping the `"$schema"` key; calling
`.keys()` on a scalar value raises, modelled by `none`. -/
def get_all_portions : Dataset → Option (List (String × String))
  | [] => some []
  | (station, v) :: rest =>
    if station = "$schema" then get_all_portions rest
    else
      match v with
      | StationVal.mapping portions =>
        (get_all_portions rest).map
          (fun ps => portions.map (fun p => (station, p.1)) ++ ps)
      | StationVal.scalar _ => none

/-- Snapshot of one stage inside a `PortionInfo` (the dict built at
src/app/main.py lines 93-98). -/
structure StageInfo where
  name : String
  status : String
  start : String
  «end» : String
deriving DecidableEq, Repr

/-- The per-portion summary dict (stages list and progress percentage). -/
structure PortionInfo where
  stages : List StageInfo
  progress : ℚ
deriving DecidableEq, Repr

/-- The summary dict returned by `query_status_by_station`. -/
structure StationSummary where
  station : String
  portions : List (String × PortionInfo)
  overall_progress : ℚ
deriving DecidableEq, Repr

/-- Result of `query_status_by_station`: the `{"error": ...}` dict, an
attribute error on a scalar value, or the summary. -/
inductive StatusResult where
  | notFound
  | crash
  | ok (summary : StationSummary)
deriving DecidableEq, Repr

/-- Number of stages of a portion whose status is `"completed"`. -/
def completedCount (stages : List Stage) : Nat :=
  (stages.filter (fun st => st.status == "completed")).length

/-! ### Binary64 rounding

Python stores the progress percentages as IEEE-754 binary64 floats:
`completed / total` (int / int true division) is the correctly rounded
binary64 value of the exact quotient, and `* 100` rounds the exact
product of that float with the exact float `100.0` again.  `fl` is
round-to-nearest, ties-to-even, with a 53-bit significand and an
unbounded exponent: overflow and subnormal rounding are not modelled,
which is exact for the engine's values (quotients of stage counts in
`[0, 1]`, scaled by `100`, all normal). -/

/-- Round a rational to the nearest integer, ties going to the even
integer (the IEEE-754 default rounding attribute). -/
def roundHalfEven (x : ℚ) : ℤ :=
  if x - ⌊x⌋ < 1 / 2 then ⌊x⌋
  else if 1 / 2 < x - ⌊x⌋ then ⌊x⌋ + 1
  else if ⌊x⌋ % 2 = 0 then ⌊x⌋ else ⌊x⌋ + 1

/-- Binary64 rounding of a positive rational: scale into
`[2^52, 2^53)`, round the significand half-to-even, scale back. -/
def flPos (q : ℚ) : ℚ :=
  (roundHalfEven (q * (2 : ℚ) ^ ((52 : ℤ) - Int.log 2 q)) : ℚ) *
    (2 : ℚ) ^ (Int.log 2 q - 52)

/-- The binary64 value nearest to a rational (ties to even significand,
exponent unbounded): the value a Python float operation stores when its
exact result is `q`. -/
def fl (q : ℚ) : ℚ :=
  if q = 0 then 0 else if q < 0 then -flPos (-q) else flPos q

/-- `query_status_by_station` (src/app/main.py lines 72-108).  The stored
progress floats are modelled by exact rational arithmetic composed with
binary64 rounding `fl` after each Python float operation: one rounding
for the int / int division, one for the `* 100`. -/
def query_status_by_station (data : Dataset) (station : String) : StatusResult :=
  match lookupStation data station with
  | none => StatusResult.notFound
  | some v =>
    if station = "$schema" then StatusResult.notFound
    else
      match v with
      | StationVal.scalar _ => StatusResult.crash
      | StationVal.mapping portions =>
        let total : Nat := (portions.map (fun p => p.2.length)).sum
        let completed : Nat := (portions.map (fun p => completedCount p.2)).sum
        StatusResult.ok
          { station := station
            portions := portions.map (fun p =>
              (p.1,
               { stages := p.2.map (fun st => ⟨st.name, st.status, st.start, st.«end»⟩)
                 progress :=
                   if p.2.length = 0 then 0
                   else fl (fl ((completedCount p.2 : ℚ) / (p.2.length : ℚ)) * 100) }))
            overall_progress :=
              if total = 0 then 0
              else fl (fl ((completed : ℚ) / (total : ℚ)) * 100) }

/-- One row of the milestones-in-range query result. -/
structure MilestoneHit where
  station : String
  portion : String
  stage : String
  milestone : String
  date : String
  status : String
deriving DecidableEq, Repr

/-- Innermost loop of the milestone query: each milestone of a stage is
date-parsed (raising on a malformed date) and appended when
`start <= milestone_date <= end`. -/
def collectHitsMs (station portion stname : String) (ds de : DateT) :
    List Milestone → Option (List MilestoneHit)
  | [] => some []
  | m :: rest => do
    let d ← parse_date m.date
    let there ← collectHitsMs station portion stname ds de rest
    some ((if dateLe ds d && dateLe d de then
            [⟨station, portion, stname, m.name, m.date, m.status⟩] else []) ++ there)

/-- Stage loop of the milestone query. -/
def collectHitsStages (station portion : String) (ds de : DateT) :
    List Stage → Option (List MilestoneHit)
  | [] => some []
  | st :: rest => do
    let here ← collectHitsMs station portion st.name ds de st.milestones
    let there ← collectHitsStages station portion ds de rest
    some (here ++ there)

/-- Portion loop of the milestone query. -/
def collectHitsPortions (station : String) (ds de : DateT) :
    List (String × List Stage) → Option (List MilestoneHit)
  | [] => some []
  | p :: ps => do
    let here ← collectHitsStages station p.1 ds de p.2
    let there ← collectHitsPortions station ds de ps
    some (here ++ there)

/-- The unsorted milestone collection loop of
`query_milestones_by_date_range` (src/app/main.py lines 115-131). -/
def collectMilestones : Dataset → DateT → DateT → Option (List MilestoneHit)
  | [], _, _ => some []
  | (station, v) :: rest, ds, de =>
    if station = "$schema" then collectMilestones rest ds de
    else
      match v with
      | StationVal.scalar _ => none
      | StationVal.mapping portions => do
        let here ← collectHitsPortions station ds de portions
        let there ← collectMilestones rest ds de
        some (here ++ there)

/-- `query_milestones_by_date_range` (src/app/main.py lines 110-133):
parse the two bounds, collect the hits in traversal order and stable-sort
them ascending on the `date` string (Python's `sorted` on the string
key). -/
def query_milestones_by_date_range (data : Dataset) (start_date end_date : String) :
    Option (List MilestoneHit) :=
  match parse_date start_date, parse_date end_date with
  | some ds, some de =>
    (collectMilestones data ds de).map
      (fun l => l.insertionSort (fun a b => strLe a.date b.date))
  | _, _ => none

/-- One row of the delay report. -/
structure DelayRecord where
  station : String
  portion : String
  stage : String
  planned_end : String
  current_status : String
  days_overdue : Int
deriving DecidableEq, Repr

/-- Stage loop of the delay check: the end date is parsed (raising on a
malformed string) and the stage is reported when it ends strictly before
the reference date and is not completed. -/
def collectDelaysStages (station portion : String) (ref : DateT) :
    List Stage → Option (List DelayRecord)
  | [] => some []
  | st :: rest => do
    let e ← parse_date st.«end»
    let there ← collectDelaysStages station portion ref rest
    some ((if dateLt e ref && !(st.status == "completed") then
            [⟨station, portion, st.name, st.«end», st.status, daysBetween e ref⟩]
           else []) ++ there)

/-- Portion loop of the delay check. -/
def collectDelaysPortions (station : String) (ref : DateT) :
    List (String × List Stage) → Option (List DelayRecord)
  | [] => some []
  | p :: ps => do
    let here ← collectDelaysStages station p.1 ref p.2
    let there ← collectDelaysPortions station ref ps
    some (here ++ there)

/-- The delay collection loop of `check_delays`
(src/app/main.py lines 142-157). -/
def collectDelays : Dataset → DateT → Option (List DelayRecord)
  | [], _ => some []
  | (station, v) :: rest, ref =>
    if station = "$schema" then collectDelays rest ref
    else
      match v with
      | StationVal.scalar _ => none
      | StationVal.mapping portions => do
        let here ← collectDelaysPortions station ref portions
        let there ← collectDelays rest ref
        some (here ++ there)

/-- `check_delays` (src/app/main.py lines 135-159).  The externally
observed clock (`datetime.now()`) is passed in as `now` and is consulted
only when no `reference_date` argument was given; the result is
stable-sorted descending on `days_overdue` (`sorted(..., reverse=True)`). -/
def check_delays (data : Dataset) (reference_date : Option String) (now : DateT) :
    Option (List DelayRecord) :=
  let refOpt := match reference_date with
    | none => some now
    | some s => parse_date s
  match refOpt with
  | none => none
  | some ref =>
    (collectDelays data ref).map
      (fun l => l.insertionSort (fun a b => b.days_overdue ≤ a.days_overdue))

/-- One row of the critical-path (duration ranking) report. -/
structure CriticalPathItem where
  station : String
  portion : String
  stage : String
  duration_days : Int
  start : String
  «end» : String
  status : String
deriving DecidableEq, Repr

/-- Stage loop of the critical-path collection. -/
def collectCriticalStages (station portion : String) :
    List Stage → Option (List CriticalPathItem)
  | [] => some []
  | st :: rest => do
    let s ← parse_date st.start
    let e ← parse_date st.«end»
    let there ← collectCriticalStages station portion rest
    some (⟨station, portion, st.name, daysBetween s e, st.start, st.«end»,
            st.status⟩ :: there)

/-- Portion loop of the critical-path collection. -/
def collectCriticalPortions (station : String) :
    List (String × List Stage) → Option (List CriticalPathItem)
  | [] => some []
  | p :: ps => do
    let here ← collectCriticalStages station p.1 p.2
    let there ← collectCriticalPortions station ps
    some (here ++ there)

/-- The collection loop of `get_critical_path`
(src/app/main.py lines 163-180). -/
def collectCritical : Dataset → Option (List CriticalPathItem)
  | [] => some []
  | (station, v) :: rest =>
    if station = "$schema" then collectCritical rest
    else
      match v with
      | StationVal.scalar _ => none
      | StationVal.mapping portions => do
        let here ← collectCriticalPortions station portions
        let there ← collectCritical rest
        some (here ++ there)

/-- `get_critical_path` (src/app/main.py lines 161-182): one row per
stage, stable-sorted descending on the duration in days. -/
def get_critical_path (data : Dataset) : Option (List CriticalPathItem) :=
  (collectCritical data).map
    (fun l => l.insertionSort (fun a b => b.duration_days ≤ a.duration_days))

/-! ### Layout engine (`visualize_roadmap`, src/app/main.py lines 184-420)

The embedding keeps the data the function computes before handing it to
plotly: the per-portion row bookkeeping (`y_pos`, a float advanced by 1
per row and by an extra 0.5 between stations, modelled over `ℚ`), the
`gantt_data` / `milestone_data` / `y_labels` lists, the global date span,
the bar traces with their colors and legend flags, the legend entries in
trace order, and the optional "today" line. -/

/-- One entry of `gantt_data` (src/app/main.py lines 222-231). -/
structure GanttTask where
  task : String
  start : String
  finish : String
  status : String
  station : String
  portion : String
  stage : String
  y_pos : ℚ
deriving DecidableEq, Repr

/-- One entry of `milestone_data` (src/app/main.py lines 235-244). -/
structure MilestoneMark where
  name : String
  date : String
  status : String
  task : String
  station : String
  portion : String
  stage : String
  y_pos : ℚ
deriving DecidableEq, Repr

/-- One bar trace of the figure: its source task, the resolved fill
color, and whether it contributes a legend entry
(src/app/main.py lines 257-290). -/
structure BarTrace where
  station : String
  portion : String
  stage : String
  status : String
  color : String
  y_pos : ℚ
  show_legend : Bool
deriving DecidableEq, Repr

/-- `self.status_colors` (src/app/main.py lines 51-56). -/
def status_colors : List (String × String) :=
  [("completed", "#2ecc71"), ("in_progress", "#3498db"),
   ("planned", "#95a5a6"), ("delayed", "#e74c3c")]

/-- `self.status_colors.get(status, '#95a5a6')`
(src/app/main.py line 260). -/
def statusColor (s : String) : String :=
  (((List.find? (fun e => e.1 == s) status_colors)).map Prod.snd).getD "#95a5a6"

/-- Stage loop of the `all_dates` pass. -/
def allDatesStages : List Stage → Option (List DateT)
  | [] => some []
  | st :: rest => do
    let s ← parse_date st.start
    let e ← parse_date st.«end»
    let there ← allDatesStages rest
    some (s :: e :: there)

/-- Portion loop of the `all_dates` pass. -/
def allDatesPortions : List (String × List Stage) → Option (List DateT)
  | [] => some []
  | p :: ps => do
    let here ← allDatesStages p.2
    let there ← allDatesPortions ps
    some (here ++ there)

/-- The `all_dates` pass (src/app/main.py lines 194-201): every stage's
start and end parsed, in traversal order; a parse failure or an attribute
error on a scalar value raises. -/
def allDates : Dataset → Option (List DateT)
  | [] => some []
  | (station, v) :: rest =>
    if station = "$schema" then allDates rest
    else
      match v with
      | StationVal.scalar _ => none
      | StationVal.mapping portions => do
        let here ← allDatesPortions portions
        let there ← allDates rest
        some (here ++ there)

/-- The per-station portion loop (src/app/main.py lines 215-246): each
portion gets one row `y`, all its stage bars and milestone marks carry
that row, and the counter advances by 1 per portion. -/
def buildPortions (station : String) :
    List (String × List Stage) → ℚ →
      List GanttTask × List MilestoneMark × List String × ℚ
  | [], y => ([], [], [], y)
  | (pname, stages) :: ps, y =>
    let label := "  " ++ pname
    let bars := stages.map (fun (st : Stage) =>
      (⟨label, st.start, st.«end», st.status, station, pname, st.name, y⟩ : GanttTask))
    let marks := stages.flatMap (fun (st : Stage) =>
      st.milestones.map (fun m =>
        (⟨m.name, m.date, m.status, label, station, pname, st.name, y⟩ : MilestoneMark)))
    let rec' := buildPortions station ps (y + 1)
    (bars ++ rec'.1, marks ++ rec'.2.1, label :: rec'.2.2.1, rec'.2.2.2)

/-- The station loop (src/app/main.py lines 207-248): a header label row
advances the counter by 1, then the portions, then an extra half row. -/
def buildRows : Dataset → ℚ →
    Option (List GanttTask × List MilestoneMark × List String × ℚ)
  | [], y => some ([], [], [], y)
  | (station, v) :: rest, y =>
    if station = "$schema" then buildRows rest y
    else
      match v with
      | StationVal.scalar _ => none
      | StationVal.mapping portions => do
        let here := buildPortions station portions (y + 1)
        let there ← buildRows rest (here.2.2.2 + 1 / 2)
        some (here.1 ++ there.1, here.2.1 ++ there.2.1,
              (("[" ++ station ++ "]") :: here.2.2.1) ++ there.2.2.1,
              there.2.2.2)

/-- The bar-trace loop (src/app/main.py lines 257-290): both date strings
are re-parsed (raising on failure), the fill color is looked up with the
`'#95a5a6'` fallback, and a status contributes a legend entry the first
time it is seen (`legend_statuses` is the seen-set). -/
def buildBars : List GanttTask → List String → Option (List BarTrace × List String)
  | [], seen => some ([], seen)
  | t :: ts, seen => do
    let _s ← parse_date t.start
    let _e ← parse_date t.finish
    let shown := decide (t.status ∈ seen)
    let seen' := if shown then seen else t.status :: seen
    let res ← buildBars ts seen'
    some ((⟨t.station, t.portion, t.stage, t.status, statusColor t.status,
            t.y_pos, !shown⟩ : BarTrace) :: res.1, res.2)

/-- The milestone-marker loop (src/app/main.py lines 305-322): every
milestone date is parsed for the marker x coordinates (raising on
failure). -/
def parseMarkerDates : List MilestoneMark → Option (List DateT)
  | [] => some []
  | m :: rest => do
    let d ← parse_date m.date
    let there ← parseMarkerDates rest
    some (d :: there)

/-- The full layout record produced before any drawing call. -/
structure Layout where
  gantt_data : List GanttTask
  milestone_data : List MilestoneMark
  y_labels : List String
  y_pos_final : ℚ
  min_date : DateT
  max_date : DateT
  bars : List BarTrace
  legend : List String
  today_marker : Option DateT
deriving DecidableEq, Repr

/-- `visualize_roadmap` (src/app/main.py lines 184-420), up to the plotly
calls.  `today` is the value read from `datetime.now()` at line 343; the
function has no parameter for it.  `min`/`max` of the empty `all_dates`
list raises, modelled by `none`; the milestone markers re-parse every
milestone date (line 312); the legend consists of the first-seen bar
statuses in trace order followed by the `"Milestones"` entry of the
marker trace, which is added only when `milestone_data` is nonempty
(line 305); the today line is drawn only when `min_date <= today <=
max_date` (line 344). -/
def visualize_roadmap (data : Dataset) (today : DateT) : Option Layout := do
  let dates ← allDates data
  match dates with
  | [] => none
  | d0 :: drest =>
    let min_date := drest.foldl (fun a b => if dateLt b a then b else a) d0
    let max_date := drest.foldl (fun a b => if dateLt a b then b else a) d0
    let rows ← buildRows data 0
    let bars ← buildBars rows.1 []
    let _ ← parseMarkerDates rows.2.1
    some
      { gantt_data := rows.1
        milestone_data := rows.2.1
        y_labels := rows.2.2.1
        y_pos_final := rows.2.2.2
        min_date := min_date
        max_date := max_date
        bars := bars.1
        legend :=
          ((bars.1.filter (fun b => b.show_legend)).map (fun b => b.status)) ++
            (if rows.2.1.isEmpty then [] else ["Milestones"])
        today_marker :=
          if dateLe min_date today && dateLe today max_date then some today
          else none }

/-! ### Claim-side definitions

These restate aspects of the spec's wording (traversal order, filters,
row indices) independently of the loops above, so that the theorems can
compare the two. -/

/-- All `(station, portion, stage)` triples of the dataset in declaration
order, skipping the `"$schema"` entry (scalar entries cannot occur in a
well-formed dataset and contribute nothing here). -/
def allStages : Dataset → List (String × String × Stage)
  | [] => []
  | (station, StationVal.mapping ps) :: rest =>
    (if station = "$schema" then []
     else ps.flatMap (fun p => p.2.map (fun st => (station, p.1, st)))) ++ allStages rest
  | (_, StationVal.scalar _) :: rest => allStages rest

/-- All milestones in declaration order (station, then portion, then
stage, then milestone), already shaped as query-result rows. -/
def allHits (data : Dataset) : List MilestoneHit :=
  (allStages data).flatMap (fun sps =>
    sps.2.2.milestones.map (fun m =>
      ⟨sps.1, sps.2.1, sps.2.2.name, m.name, m.date, m.status⟩))

/-- Every stage's start and end date string parses. -/
def stageDatesOkB (data : Dataset) : Bool :=
  (allStages data).all (fun s =>
    (parse_date s.2.2.start).isSome && (parse_date s.2.2.«end»).isSome)

/-- Every milestone date string parses. -/
def milestoneDatesOkB (data : Dataset) : Bool :=
  (allHits data).all (fun h => (parse_date h.date).isSome)

/-- A date string in the canonical zero-padded `YYYY-MM-DD` shape: it
parses, and re-rendering the parsed date reproduces it. -/
def canonicalDateB (s : String) : Bool :=
  match parse_date s with
  | some dt => fmtDate dt == s
  | none => false

/-- Every milestone date string is canonical `YYYY-MM-DD`. -/
def milestoneDatesCanonicalB (data : Dataset) : Bool :=
  (allHits data).all (fun h => canonicalDateB h.date)

/-- The parsed date of a query-result row, collapsed to a numeral. -/
def pDateVal (h : MilestoneHit) : Nat :=
  match parse_date h.date with
  | some dt => dateVal dt
  | none => 0

/-- The delay row the spec prescribes for an overdue stage. -/
def delayRecordOf (ref : DateT) (s : String × String × Stage) (e : DateT) : DelayRecord :=
  ⟨s.1, s.2.1, s.2.2.name, s.2.2.«end», s.2.2.status, daysBetween e ref⟩

/-- The delay rows the spec prescribes: exactly the stages with
`end < referenceDate` and status other than `"completed"`, in traversal
order, each carrying `days_overdue = referenceDate - end`. -/
def delaysSpec (data : Dataset) (ref : DateT) : List DelayRecord :=
  (allStages data).filterMap (fun s =>
    match parse_date s.2.2.«end» with
    | some e =>
      if dateLt e ref && !(s.2.2.status == "completed") then
        some (delayRecordOf ref s e)
      else none
    | none => none)

/-- The milestone rows the spec prescribes for a range query: exactly
the milestones with `startDate <= date <= endDate`, in traversal order. -/
def hitsInRange (data : Dataset) (ds de : DateT) : List MilestoneHit :=
  (allHits data).filter (fun h =>
    match parse_date h.date with
    | some d => dateLe ds d && dateLe d de
    | none => false)

/-- The `(station, portion)` pairs of every entry other than `"$schema"`. -/
def portionPairs : Dataset → List (String × String)
  | [] => []
  | (station, StationVal.mapping ps) :: rest =>
    (if station = "$schema" then [] else ps.map (fun p => (station, p.1))) ++
      portionPairs rest
  | (_, StationVal.scalar _) :: rest => portionPairs rest

/-- Number of top-level entries other than `"$schema"`. -/
def stationsCount : Dataset → Nat
  | [] => 0
  | (station, _) :: rest => (if station = "$schema" then 0 else 1) + stationsCount rest

/-- Total number of portions over the entries other than `"$schema"`. -/
def portionsCount : Dataset → Nat
  | [] => 0
  | (station, StationVal.mapping ps) :: rest =>
    (if station = "$schema" then 0 else ps.length) + portionsCount rest
  | (_, StationVal.scalar _) :: rest => portionsCount rest

/-- The row index the spec prescribes for each `(station, portion)` pair:
one header row per station, one row per portion, an extra half row after
each station. -/
def portionRows : Dataset → ℚ → List (String × String × ℚ)
  | [], _ => []
  | (station, StationVal.mapping ps) :: rest, y =>
    if station = "$schema" then portionRows rest y
    else
      (ps.enum.map (fun pj => (station, pj.2.1, y + 1 + (pj.1 : ℚ)))) ++
        portionRows rest (y + 1 + ps.length + 1 / 2)
  | (_, StationVal.scalar _) :: rest, y => portionRows rest y

/-- Completed-stage count over the snapshots held in a summary. -/
def completedInfoCount (stages : List StageInfo) : Nat :=
  (stages.filter (fun st => st.status == "completed")).length

/-- Total stage count over all portions of a summary. -/
def summaryTotalStages (summary : StationSummary) : Nat :=
  (summary.portions.map (fun pi => pi.2.stages.length)).sum

/-- Completed-stage count over all portions of a summary. -/
def summaryCompletedStages (summary : StationSummary) : Nat :=
  (summary.portions.map (fun pi => completedInfoCount pi.2.stages)).sum

/-- Portion progresses weighted by their own stage counts. -/
def summaryWeightedSum (summary : StationSummary) : ℚ :=
  (summary.portions.map (fun pi => (pi.2.stages.length : ℚ) * pi.2.progress)).sum

/-- Stage-count-weighted sum of the EXACT (unrounded) portion progress
fractions, recomputed from the stage snapshots a summary holds; the
stored float progresses are these values rounded by `fl`. -/
def summaryWeightedExact (summary : StationSummary) : ℚ :=
  (summary.portions.map (fun pi => (pi.2.stages.length : ℚ) *
    (if pi.2.stages.length = 0 then 0
     else (completedInfoCount pi.2.stages : ℚ) / (pi.2.stages.length : ℚ) * 100))).sum

/-- The top-level keys are pairwise distinct (Python `dict` keys always
are; the list model has to assume it). -/
def stationKeysNodupB (data : Dataset) : Bool :=
  decide (data.map Prod.fst).Nodup

/-- Within each station the portion keys are pairwise distinct. -/
def portionKeysNodupB : Dataset → Bool
  | [] => true
  | (_, StationVal.mapping ps) :: rest =>
    decide (ps.map Prod.fst).Nodup && portionKeysNodupB rest
  | (_, StationVal.scalar _) :: rest => portionKeysNodupB rest

/-- First occurrence of each value, in first-seen order, ignoring the
accumulator `seen`. -/
def firstSeenAux : List String → List String → List String
  | [], _ => []
  | x :: xs, seen =>
    if x ∈ seen then firstSeenAux xs seen else x :: firstSeenAux xs (x :: seen)

/-- The distinct values of a list in first-seen order. -/
def firstSeen (l : List String) : List String := firstSeenAux l []

/--
Modelled from the spec: a date string of the strict `YYYY-MM-DD` shape
used by §4.1 ("strict parse of `YYYY-MM-DD`", four-digit zero-padded
year, two-digit zero-padded month and day) denoting a date the
`datetime` constructor accepts.  The loader that would enforce this shape
is external to the repository, so the shape itself is taken from the
spec's words.
-/
def StrictShape (s : String) : Prop :=
  ∃ dt : DateT, validDateB dt = true ∧ s = fmtDate dt

/-- The shape `strptime("%Y-%m-%d")` actually accepts: four year digits,
a dash, one or two month digits, a dash, one or two day digits, nothing
else, with the resulting components forming a constructible date.
Zero-padding of month and day is optional. -/
def LenientShape (s : String) (dt : DateT) : Prop :=
  ∃ ys ms ds : List Char,
    s.data = ys ++ '-' :: (ms ++ '-' :: ds) ∧
    ys.length = 4 ∧ (∀ c ∈ ys, c.isDigit) ∧
    1 ≤ ms.length ∧ ms.length ≤ 2 ∧ (∀ c ∈ ms, c.isDigit) ∧
    1 ≤ ds.length ∧ ds.length ≤ 2 ∧ (∀ c ∈ ds, c.isDigit) ∧
    dt.year = natOfDigits ys ∧ dt.month = natOfDigits ms ∧ dt.day = natOfDigits ds ∧
    1 ≤ dt.year ∧ 1 ≤ dt.month ∧ dt.month ≤ 12 ∧
    1 ≤ dt.day ∧ dt.day ≤ daysInMonth dt.year dt.month

/-! ### Concrete fixtures -/

/-- The spec's §8 example fixture: a `"$schema"` entry and one station
`"A"` with portion `"P1"`, one completed stage and one milestone. -/
def fixture1 : Dataset :=
  [("$schema", StationVal.scalar "https://example.com/schema.json"),
   ("A", StationVal.mapping
     [("P1", [{ name := "S1", start := "2024-01-01", «end» := "2024-01-10",
                status := "completed",
                milestones := [{ name := "M1", date := "2024-01-05",
                                 status := "completed" }] }])])]

/-- The §8 fixture with the stage switched to `in_progress`. -/
def fixture2 : Dataset :=
  [("A", StationVal.mapping
     [("P1", [{ name := "S1", start := "2024-01-01", «end» := "2024-01-10",
                status := "in_progress",
                milestones := [{ name := "M1", date := "2024-01-05",
                                 status := "completed" }] }])])]

/-- A top-level key that begins with `"$schema"` without being equal to
it, carrying a perfectly station-shaped value. -/
def fixture3 : Dataset :=
  [("$schemas", StationVal.mapping [("P1", [])])]

/-- A top-level key (not `"$schema"`) whose value is not a mapping. -/
def fixture4 : Dataset :=
  [("X", StationVal.scalar "not a station")]

/-- Two stations with three portions overall, several stages and
milestones; used to exercise layout rows and sorting. -/
def fixture5 : Dataset :=
  [("A", StationVal.mapping
     [("P1", [{ name := "S1", start := "2024-01-01", «end» := "2024-03-10",
                status := "completed",
                milestones := [{ name := "M1", date := "2024-02-05",
                                 status := "completed" }] },
              { name := "S2", start := "2024-02-01", «end» := "2024-04-01",
                status := "in_progress",
                milestones := [{ name := "M2", date := "2024-02-05",
                                 status := "planned" }] }]),
      ("P2", [{ name := "S3", start := "2024-01-15", «end» := "2024-01-20",
                status := "delayed", milestones := [] }])]),
   ("B", StationVal.mapping
     [("P3", [{ name := "S4", start := "2024-01-05", «end» := "2024-05-01",
                status := "planned",
                milestones := [{ name := "M3", date := "2024-01-25",
                                 status := "planned" }] }])])]

/-- One station whose only stage has no milestones. -/
def fixture6 : Dataset :=
  [("A", StationVal.mapping
     [("P1", [{ name := "S1", start := "2024-01-01", «end» := "2024-01-10",
                status := "in_progress", milestones := [] }])])]

/-- A station and a portion but zero stages. -/
def fixture7 : Dataset :=
  [("A", StationVal.mapping [("P1", [])])]

/-- One station with a 1-stage portion (none completed) and a 2-stage
portion (one completed): the overall fraction is `1 / 3`, whose float
evaluation differs from the exact weighted mean of the stored portion
floats `0` and `50`. -/
def fixtureC3 : Dataset :=
  [("A", StationVal.mapping
     [("P1", [{ name := "S1", start := "2024-01-01", «end» := "2024-01-10",
                status := "planned", milestones := [] }]),
      ("P2", [{ name := "S2", start := "2024-01-01", «end» := "2024-01-10",
                status := "completed", milestones := [] },
              { name := "S3", start := "2024-01-11", «end» := "2024-01-20",
                status := "planned", milestones := [] }])])]

/-- The summary the station-status query computes on `fixtureC3`:
`4691249611844266 / 2 ^ 47` is the binary64 value of
`fl(1 / 3) * 100` (printed `33.33333333333333` by Python), strictly
below the exact `100 / 3`. -/
def summaryC3 : StationSummary :=
  { station := "A"
    portions :=
      [("P1", { stages := [{ name := "S1", status := "planned",
                             start := "2024-01-01", «end» := "2024-01-10" }]
                progress := 0 }),
       ("P2", { stages := [{ name := "S2", status := "completed",
                             start := "2024-01-01", «end» := "2024-01-10" },
                           { name := "S3", status := "planned",
                             start := "2024-01-11", «end» := "2024-01-20" }]
                progress := 50 })]
    overall_progress := 4691249611844266 / 2 ^ 47 }

/-- The summary `query_status_by_station` computes for station `"A"` of
`fixture2`. -/
def summary2 : StationSummary :=
  { station := "A"
    portions := [("P1",
      { stages := [{ name := "S1", status := "in_progress",
                     start := "2024-01-01", «end» := "2024-01-10" }]
        progress := 0 })]
    overall_progress := 0 }

/-! ### Lemmas about dates and parsing -/

theorem isDigit_toNat {c : Char} (h : c.isDigit = true) : 48 ≤ c.toNat ∧ c.toNat ≤ 57 := by
  unfold Char.isDigit at h
  rw [Bool.and_eq_true, decide_eq_true_eq, decide_eq_true_eq] at h
  exact ⟨h.1, h.2⟩

theorem digitVal_le_of_isDigit {c : Char} (h : c.isDigit = true) : digitVal c ≤ 9 := by
  have := isDigit_toNat h
  unfold digitVal
  omega

theorem foldl_digits_lt (l : List Char) :
    ∀ acc : Nat, (∀ c ∈ l, c.isDigit) →
      l.foldl (fun a c => 10 * a + digitVal c) acc < (acc + 1) * 10 ^ l.length := by
  induction l with
  | nil => intro acc _; simp
  | cons c t ih =>
    intro acc h
    have hc : digitVal c ≤ 9 :=
      digitVal_le_of_isDigit (h c (List.mem_cons_self c t))
    have ht := ih (10 * acc + digitVal c) (fun x hx => h x (List.mem_cons_of_mem c hx))
    simp only [List.foldl_cons, List.length_cons]
    calc List.foldl (fun a c => 10 * a + digitVal c) (10 * acc + digitVal c) t
        < (10 * acc + digitVal c + 1) * 10 ^ t.length := ht
      _ ≤ (acc + 1) * 10 ^ (t.length + 1) := by
          rw [pow_succ]
          calc (10 * acc + digitVal c + 1) * 10 ^ t.length
              ≤ ((acc + 1) * 10) * 10 ^ t.length := by
                apply Nat.mul_le_mul_right
                omega
            _ = (acc + 1) * (10 ^ t.length * 10) := by ring

theorem natOfDigits_lt (l : List Char) (h : ∀ c ∈ l, c.isDigit) :
    natOfDigits l < 10 ^ l.length := by
  have := foldl_digits_lt l 0 h
  simpa [natOfDigits] using this

theorem daysInMonth_le (y m : Nat) : daysInMonth y m ≤ 31 := by
  unfold daysInMonth
  split <;> [split <;> omega; skip]
  split <;> omega

/-- Forward and backward characterization of the embedded
`strptime("%Y-%m-%d")`. -/
theorem parseDateChars_eq_some_iff (cs : List Char) (dt : DateT) :
    parseDateChars cs = some dt ↔
      ∃ ys ms ds : List Char,
        cs = ys ++ '-' :: (ms ++ '-' :: ds) ∧
        ys.length = 4 ∧ (∀ c ∈ ys, c.isDigit) ∧
        1 ≤ ms.length ∧ ms.length ≤ 2 ∧ (∀ c ∈ ms, c.isDigit) ∧
        1 ≤ ds.length ∧ ds.length ≤ 2 ∧ (∀ c ∈ ds, c.isDigit) ∧
        dt.year = natOfDigits ys ∧ dt.month = natOfDigits ms ∧ dt.day = natOfDigits ds ∧
        1 ≤ dt.year ∧ 1 ≤ dt.month ∧ dt.month ≤ 12 ∧
        1 ≤ dt.day ∧ dt.day ≤ daysInMonth dt.year dt.month := by
  constructor
  · intro h
    match cs with
    | [] => exact Option.noConfusion h
    | [y1] => exact Option.noConfusion h
    | [y1, y2] => exact Option.noConfusion h
    | [y1, y2, y3] => exact Option.noConfusion h
    | [y1, y2, y3, y4] => exact Option.noConfusion h
    | y1 :: y2 :: y3 :: y4 :: c :: rest =>
      simp only [parseDateChars] at h
      by_cases h1 : (y1.isDigit && y2.isDigit && y3.isDigit && y4.isDigit && (c == '-')) = true
      swap
      · rw [if_neg (by simpa using h1)] at h
        exact Option.noConfusion h
      rw [if_pos (by simpa using h1)] at h
      simp only [Bool.and_eq_true, beq_iff_eq] at h1
      obtain ⟨⟨⟨⟨hy1, hy2⟩, hy3⟩, hy4⟩, hc⟩ := h1
      rcases hdw : rest.dropWhile Char.isDigit with _ | ⟨c2, rest2⟩
      · rw [hdw] at h; exact Option.noConfusion h
      rw [hdw] at h
      dsimp only at h
      by_cases h2 : (c2 == '-') = true
      swap
      · rw [if_neg (by simpa using h2)] at h; exact Option.noConfusion h
      rw [if_pos (by simpa using h2)] at h
      rw [beq_iff_eq] at h2
      by_cases h3 : rest2.dropWhile Char.isDigit = ([] : List Char)
      swap
      · rw [if_neg h3] at h; exact Option.noConfusion h
      rw [if_pos h3] at h
      by_cases h4 : (1 ≤ (rest.takeWhile Char.isDigit).length ∧
          (rest.takeWhile Char.isDigit).length ≤ 2 ∧
          1 ≤ (rest2.takeWhile Char.isDigit).length ∧
          (rest2.takeWhile Char.isDigit).length ≤ 2)
      swap
      · rw [if_neg (by simp only [Bool.and_eq_true, decide_eq_true_eq]; tauto)] at h
        exact Option.noConfusion h
      rw [if_pos (by simp only [Bool.and_eq_true, decide_eq_true_eq]; tauto)] at h
      obtain ⟨hm1, hm2, hd1, hd2⟩ := h4
      by_cases h5 : (1 ≤ natOfDigits [y1, y2, y3, y4] ∧
          1 ≤ natOfDigits (rest.takeWhile Char.isDigit) ∧
          natOfDigits (rest.takeWhile Char.isDigit) ≤ 12 ∧
          1 ≤ natOfDigits (rest2.takeWhile Char.isDigit) ∧
          natOfDigits (rest2.takeWhile Char.isDigit) ≤
            daysInMonth (natOfDigits [y1, y2, y3, y4])
              (natOfDigits (rest.takeWhile Char.isDigit)))
      swap
      · rw [if_neg (by simp only [Bool.and_eq_true, decide_eq_true_eq]; tauto)] at h
        exact Option.noConfusion h
      rw [if_pos (by simp only [Bool.and_eq_true, decide_eq_true_eq]; tauto)] at h
      obtain ⟨hv1, hv2, hv3, hv4, hv5⟩ := h5
      obtain rfl : (⟨natOfDigits [y1, y2, y3, y4], natOfDigits (rest.takeWhile Char.isDigit),
          natOfDigits (rest2.takeWhile Char.isDigit)⟩ : DateT) = dt := Option.some.inj h
      refine ⟨[y1, y2, y3, y4], rest.takeWhile Char.isDigit, rest2.takeWhile Char.isDigit,
        ?_, rfl, ?_, hm1, hm2, ?_, hd1, hd2, ?_, rfl, rfl, rfl, hv1, hv2, hv3, hv4, hv5⟩
      · subst hc
        have hsplit : rest = rest.takeWhile Char.isDigit ++ rest.dropWhile Char.isDigit :=
          (List.takeWhile_append_dropWhile (p := Char.isDigit) (l := rest)).symm
        have hsplit2 : rest2 = rest2.takeWhile Char.isDigit ++ rest2.dropWhile Char.isDigit :=
          (List.takeWhile_append_dropWhile (p := Char.isDigit) (l := rest2)).symm
        rw [h3, List.append_nil] at hsplit2
        subst h2
        rw [← hsplit2]
        conv_lhs => rw [hsplit, hdw]
        simp
      · intro x hx
        simp only [List.mem_cons, List.not_mem_nil, or_false] at hx
        rcases hx with rfl | rfl | rfl | rfl <;> assumption
      · intro x hx; exact List.mem_takeWhile_imp hx
      · intro x hx; exact List.mem_takeWhile_imp hx
  · rintro ⟨ys, ms, ds, hcs, h4, hysd, hm1, hm2, hmsd, hd1, hd2, hdsd,
      hy, hm, hd, hvy, hvm1, hvm2, hvd1, hvd2⟩
    obtain ⟨y1, y2, y3, y4, rfl⟩ : ∃ a b c d, ys = [a, b, c, d] := by
      rcases ys with _ | ⟨a, _ | ⟨b, _ | ⟨c, _ | ⟨d, _ | ⟨e, t⟩⟩⟩⟩⟩ <;> simp_all
    subst hcs
    have hdashm : ('-').isDigit = false := by decide
    have htw : (ms ++ '-' :: ds).takeWhile Char.isDigit = ms := by
      rw [List.takeWhile_append_of_pos hmsd, List.takeWhile_cons_of_neg (by simp [hdashm]),
        List.append_nil]
    have hdwq : (ms ++ '-' :: ds).dropWhile Char.isDigit = '-' :: ds := by
      rw [List.dropWhile_append_of_pos hmsd, List.dropWhile_cons_of_neg (by simp [hdashm])]
    have htwd : ds.takeWhile Char.isDigit = ds := List.takeWhile_eq_self_iff.mpr hdsd
    have hdwd : ds.dropWhile Char.isDigit = ([] : List Char) :=
      List.dropWhile_eq_nil_iff.mpr fun x hx => hdsd x hx
    simp only [List.cons_append, List.nil_append, parseDateChars]
    rw [if_pos]
    swap
    · have d1 := hysd y1 (by simp)
      have d2 := hysd y2 (by simp)
      have d3 := hysd y3 (by simp)
      have d4 := hysd y4 (by simp)
      simp [d1, d2, d3, d4]
    rw [hdwq]
    dsimp only
    rw [if_pos (by simp), htw, hdwd, if_pos rfl, htwd]
    rw [if_pos]
    swap
    · simp only [Bool.and_eq_true, decide_eq_true_eq]
      exact ⟨⟨⟨hm1, hm2⟩, hd1⟩, hd2⟩
    rw [if_pos]
    swap
    · simp only [Bool.and_eq_true, decide_eq_true_eq]
      rw [← hy, ← hm, ← hd]
      exact ⟨⟨⟨⟨hvy, hvm1⟩, hvm2⟩, hvd1⟩, hvd2⟩
    rw [← hy, ← hm, ← hd]

/-- `parse_date` succeeds exactly on `LenientShape` strings. -/
theorem parse_date_eq_some_iff (s : String) (dt : DateT) :
    parse_date s = some dt ↔ LenientShape s dt := by
  unfold parse_date LenientShape
  exact parseDateChars_eq_some_iff s.data dt

/-- Every date `parse_date` returns is constructible and has a four-digit
year. -/
theorem parse_date_valid {s : String} {dt : DateT} (h : parse_date s = some dt) :
    1 ≤ dt.year ∧ dt.year ≤ 9999 ∧ 1 ≤ dt.month ∧ dt.month ≤ 12 ∧
      1 ≤ dt.day ∧ dt.day ≤ daysInMonth dt.year dt.month := by
  rw [parse_date_eq_some_iff] at h
  obtain ⟨ys, ms, ds, _, h4, hysd, _, _, _, _, _, _, hy, _, _, hvy, hvm1, hvm2, hvd1, hvd2⟩ := h
  refine ⟨hvy, ?_, hvm1, hvm2, hvd1, hvd2⟩
  have := natOfDigits_lt ys hysd
  rw [h4] at this
  rw [hy]
  omega

theorem fmtDate_data_length (dt : DateT) : (fmtDate dt).data.length = 10 := by
  simp [fmtDate, pad4, pad2]

/-! ### Digit characters and lexicographic comparison -/

theorem digitChar_mod (i : Nat) : digitChar (i % 10) = digitChar i := by
  unfold digitChar
  rw [Nat.mod_mod_of_dvd _ (dvd_refl 10)]

theorem digitChar_lt_iff_lt :
    ∀ i, i < 10 → ∀ j, j < 10 → ((digitChar i < digitChar j) ↔ i < j) := by decide

theorem digitChar_eq_iff_eq :
    ∀ i, i < 10 → ∀ j, j < 10 → ((digitChar i = digitChar j) ↔ i = j) := by decide

theorem digitChar_lt_iff (i j : Nat) :
    digitChar i < digitChar j ↔ i % 10 < j % 10 := by
  rw [← digitChar_mod i, ← digitChar_mod j]
  exact digitChar_lt_iff_lt (i % 10) (Nat.mod_lt _ (by norm_num))
    (j % 10) (Nat.mod_lt _ (by norm_num))

theorem digitChar_eq_iff (i j : Nat) :
    digitChar i = digitChar j ↔ i % 10 = j % 10 := by
  rw [← digitChar_mod i, ← digitChar_mod j]
  exact digitChar_eq_iff_eq (i % 10) (Nat.mod_lt _ (by norm_num))
    (j % 10) (Nat.mod_lt _ (by norm_num))

theorem lexLe_append_eq (u s t : List Char) :
    lexLe (u ++ s) (u ++ t) = lexLe s t := by
  induction u with
  | nil => rfl
  | cons a u ih =>
    show (if a < a then true else if a = a then lexLe (u ++ s) (u ++ t) else false) = _
    rw [if_neg (lt_irrefl a), if_pos rfl, ih]

theorem lexLe_append_ne (u v s t : List Char) (h : u.length = v.length) (hne : u ≠ v) :
    lexLe (u ++ s) (v ++ t) = lexLe u v := by
  induction u generalizing v with
  | nil =>
    obtain rfl : v = [] := by cases v <;> simp_all
    exact absurd rfl hne
  | cons a u ih =>
    cases v with
    | nil => simp at h
    | cons b v =>
      simp only [List.cons_append, lexLe]
      by_cases hab : a < b
      · rw [if_pos hab, if_pos hab]
      · rw [if_neg hab, if_neg hab]
        by_cases heq : a = b
        · subst heq
          rw [if_pos rfl, if_pos rfl]
          have hne' : u ≠ v := fun hx => hne (by rw [hx])
          exact ih v (by simpa using h) hne'
        · rw [if_neg heq, if_neg heq]

theorem lexLe_dash_cons (s t : List Char) :
    lexLe ('-' :: s) ('-' :: t) = lexLe s t := by
  show (if ('-' : Char) < '-' then true else if ('-' : Char) = '-' then lexLe s t else false) = _
  rw [if_neg (lt_irrefl _), if_pos rfl]

theorem lexLe_pad2_iff (a b : Nat) (ha : a < 100) (hb : b < 100) :
    (lexLe (pad2 a) (pad2 b) = true) ↔ a ≤ b := by
  simp only [pad2, lexLe]
  split_ifs <;> simp_all [digitChar_lt_iff, digitChar_eq_iff] <;> omega

theorem pad2_eq_iff (a b : Nat) (ha : a < 100) (hb : b < 100) :
    pad2 a = pad2 b ↔ a = b := by
  simp only [pad2, List.cons.injEq, and_true, digitChar_eq_iff]
  omega

theorem lexLe_pad4_iff (a b : Nat) (ha : a < 10000) (hb : b < 10000) :
    (lexLe (pad4 a) (pad4 b) = true) ↔ a ≤ b := by
  simp only [pad4, lexLe]
  split_ifs <;> simp_all [digitChar_lt_iff, digitChar_eq_iff] <;> omega

theorem pad4_eq_iff (a b : Nat) (ha : a < 10000) (hb : b < 10000) :
    pad4 a = pad4 b ↔ a = b := by
  simp only [pad4, List.cons.injEq, and_true, digitChar_eq_iff]
  omega

/-- Bounds packaged out of `validDateB`. -/
theorem validDateB_bounds {dt : DateT} (h : validDateB dt = true) :
    1 ≤ dt.year ∧ dt.year ≤ 9999 ∧ 1 ≤ dt.month ∧ dt.month ≤ 12 ∧
      1 ≤ dt.day ∧ dt.day ≤ 31 := by
  unfold validDateB at h
  simp only [Bool.and_eq_true, decide_eq_true_eq] at h
  have := daysInMonth_le dt.year dt.month
  omega

/-- On canonically rendered valid dates, Python's string order coincides
with the date order. -/
theorem strLe_fmtDate_iff (a b : DateT) (ha : validDateB a = true) (hb : validDateB b = true) :
    (strLe (fmtDate a) (fmtDate b) = true) ↔ dateVal a ≤ dateVal b := by
  obtain ⟨hay1, hay2, ham1, ham2, had1, had2⟩ := validDateB_bounds ha
  obtain ⟨hby1, hby2, hbm1, hbm2, hbd1, hbd2⟩ := validDateB_bounds hb
  unfold strLe fmtDate dateVal
  show (lexLe (pad4 a.year ++ '-' :: (pad2 a.month ++ '-' :: pad2 a.day))
      (pad4 b.year ++ '-' :: (pad2 b.month ++ '-' :: pad2 b.day)) = true) ↔ _
  by_cases hy : pad4 a.year = pad4 b.year
  · have hyy : a.year = b.year := (pad4_eq_iff _ _ (by omega) (by omega)).mp hy
    rw [hy, lexLe_append_eq, lexLe_dash_cons]
    by_cases hm : pad2 a.month = pad2 b.month
    · have hmm : a.month = b.month := (pad2_eq_iff _ _ (by omega) (by omega)).mp hm
      rw [hm, lexLe_append_eq, lexLe_dash_cons]
      rw [lexLe_pad2_iff _ _ (by omega) (by omega)]
      omega
    · have hmm : a.month ≠ b.month :=
        fun hx => hm ((pad2_eq_iff _ _ (by omega) (by omega)).mpr hx)
      rw [lexLe_append_ne _ _ _ _ (by simp [pad2]) hm]
      rw [lexLe_pad2_iff _ _ (by omega) (by omega)]
      omega
  · have hyy : a.year ≠ b.year :=
      fun hx => hy ((pad4_eq_iff _ _ (by omega) (by omega)).mpr hx)
    rw [lexLe_append_ne _ _ _ _ (by simp [pad4]) hy]
    rw [lexLe_pad4_iff _ _ (by omega) (by omega)]
    omega

/-! ### Stable sorting lemmas

Python's `sorted` is the unique stable sort; `List.insertionSort` with a
non-strict comparison computes it.  The lemmas below let the theorems
exchange comparators that agree on the list, and state stability as
filters by key being preserved. -/

theorem orderedInsert_congr {α : Type} {r s : α → α → Prop}
    [DecidableRel r] [DecidableRel s] (a : α) (l : List α)
    (h : ∀ x ∈ l, (r a x ↔ s a x)) :
    l.orderedInsert r a = l.orderedInsert s a := by
  induction l with
  | nil => rfl
  | cons b t ih =>
    simp only [List.orderedInsert]
    by_cases hr : r a b
    · rw [if_pos hr, if_pos ((h b (List.mem_cons_self b t)).mp hr)]
    · rw [if_neg hr, if_neg (fun hs => hr ((h b (List.mem_cons_self b t)).mpr hs)),
        ih (fun x hx => h x (List.mem_cons_of_mem b hx))]

theorem insertionSort_congr {α : Type} {r s : α → α → Prop}
    [DecidableRel r] [DecidableRel s] (l : List α)
    (h : ∀ x ∈ l, ∀ y ∈ l, (r x y ↔ s x y)) :
    l.insertionSort r = l.insertionSort s := by
  induction l with
  | nil => rfl
  | cons a t ih =>
    simp only [List.insertionSort]
    rw [ih (fun x hx y hy =>
      h x (List.mem_cons_of_mem a hx) y (List.mem_cons_of_mem a hy))]
    apply orderedInsert_congr
    intro x hx
    have hx' : x ∈ t := (List.mem_insertionSort s).mp hx
    exact h a (List.mem_cons_self a t) x (List.mem_cons_of_mem a hx')

theorem filter_orderedInsert_pos {α : Type} {r : α → α → Prop} [DecidableRel r]
    (P : α → Bool) (a : α) (l : List α) (hpa : P a = true)
    (h : ∀ b, P b = true → r a b) :
    (l.orderedInsert r a).filter P = a :: l.filter P := by
  induction l with
  | nil => simp [List.orderedInsert, hpa]
  | cons b t ih =>
    simp only [List.orderedInsert]
    by_cases hr : r a b
    · rw [if_pos hr]
      simp [List.filter_cons, hpa]
    · rw [if_neg hr]
      have hpb : P b = false := by
        cases hPb : P b
        · rfl
        · exact absurd (h b hPb) hr
      simp [List.filter_cons, hpb, ih]

theorem filter_orderedInsert_neg {α : Type} {r : α → α → Prop} [DecidableRel r]
    (P : α → Bool) (a : α) (l : List α) (hpa : P a = false) :
    (l.orderedInsert r a).filter P = l.filter P := by
  rw [List.orderedInsert_eq_take_drop, List.filter_append, List.filter_cons, hpa]
  simp only [Bool.false_eq_true, if_false]
  rw [← List.filter_append, List.takeWhile_append_dropWhile]

theorem insertionSort_filter {α : Type} {r : α → α → Prop} [DecidableRel r]
    (P : α → Bool) (l : List α) (h : ∀ a b, P a = true → P b = true → r a b) :
    (l.insertionSort r).filter P = l.filter P := by
  induction l with
  | nil => rfl
  | cons a t ih =>
    simp only [List.insertionSort]
    by_cases hpa : P a = true
    · rw [filter_orderedInsert_pos P a _ hpa (fun b hb => h a b hpa hb), ih,
        List.filter_cons_of_pos hpa]
    · have hpa' : P a = false := by
        cases hPa : P a
        · rfl
        · exact absurd hPa hpa
      rw [filter_orderedInsert_neg P a _ hpa', ih, List.filter_cons_of_neg]
      simp [hpa']

/-! ### The delay-collection loop equals its specification -/

theorem collectDelaysStages_eq (station portion : String) (ref : DateT)
    (stages : List Stage)
    (h : ∀ st ∈ stages, (parse_date st.«end»).isSome = true) :
    collectDelaysStages station portion ref stages =
      some ((stages.map (fun st => (station, portion, st))).filterMap (fun s =>
        match parse_date s.2.2.«end» with
        | some e =>
          if dateLt e ref && !(s.2.2.status == "completed") then
            some (delayRecordOf ref s e)
          else none
        | none => none)) := by
  induction stages with
  | nil => rfl
  | cons st t ih =>
    obtain ⟨e, he⟩ := Option.isSome_iff_exists.mp (h st (List.mem_cons_self st t))
    have ht := ih (fun x hx => h x (List.mem_cons_of_mem st hx))
    simp only [collectDelaysStages, he, Option.bind_eq_bind, Option.some_bind, ht,
      List.map_cons, List.filterMap_cons]
    by_cases hc : (dateLt e ref && !(st.status == "completed")) = true
    · simp [hc, delayRecordOf]
    · simp only [Bool.not_eq_true] at hc
      simp [hc]

theorem collectDelaysPortions_eq (station : String) (ref : DateT)
    (ps : List (String × List Stage))
    (h : ∀ p ∈ ps, ∀ st ∈ p.2, (parse_date st.«end»).isSome = true) :
    collectDelaysPortions station ref ps =
      some ((ps.flatMap (fun p => p.2.map (fun st => (station, p.1, st)))).filterMap
        (fun s =>
          match parse_date s.2.2.«end» with
          | some e =>
            if dateLt e ref && !(s.2.2.status == "completed") then
              some (delayRecordOf ref s e)
            else none
          | none => none)) := by
  induction ps with
  | nil => rfl
  | cons p t ih =>
    have hp := collectDelaysStages_eq station p.1 ref p.2
      (fun st hst => h p (List.mem_cons_self p t) st hst)
    have ht := ih (fun q hq st hst => h q (List.mem_cons_of_mem p hq) st hst)
    simp only [collectDelaysPortions, hp, Option.bind_eq_bind, Option.some_bind, ht,
      List.flatMap_cons, List.filterMap_append]

theorem collectDelays_eq (data : Dataset) (ref : DateT)
    (hwf : wellFormedB data = true) (hd : stageDatesOkB data = true) :
    collectDelays data ref = some (delaysSpec data ref) := by
  induction data with
  | nil => rfl
  | cons entry rest ih =>
    obtain ⟨station, v⟩ := entry
    match v with
    | StationVal.scalar sv =>
      have hsch : station = "$schema" := by
        simp only [wellFormedB, Bool.and_eq_true, beq_iff_eq] at hwf
        exact hwf.1
      have hwf' : wellFormedB rest = true := by
        simp only [wellFormedB, Bool.and_eq_true] at hwf
        exact hwf.2
      have hd' : stageDatesOkB rest = true := by
        unfold stageDatesOkB at hd ⊢
        simpa [allStages] using hd
      simp only [collectDelays, hsch, if_pos rfl]
      rw [ih hwf' hd']
      unfold delaysSpec
      simp [allStages]
    | StationVal.mapping ps =>
      have hwf' : wellFormedB rest = true := by
        simpa [wellFormedB] using hwf
      by_cases hsch : station = "$schema"
      · have hd' : stageDatesOkB rest = true := by
          unfold stageDatesOkB at hd ⊢
          simpa [allStages, hsch] using hd
        simp only [collectDelays, hsch, if_pos rfl]
        rw [ih hwf' hd']
        unfold delaysSpec
        simp [allStages, hsch]
      · have hsplit : stageDatesOkB rest = true ∧
            ∀ p ∈ ps, ∀ st ∈ p.2, (parse_date st.«end»).isSome = true := by
          unfold stageDatesOkB at hd
          rw [List.all_eq_true] at hd
          constructor
          · unfold stageDatesOkB
            rw [List.all_eq_true]
            intro s hs
            apply hd
            simp only [allStages, hsch, if_neg hsch, List.mem_append]
            exact Or.inr hs
          · intro p hp st hst
            have : (station, p.1, st) ∈ allStages ((station, StationVal.mapping ps) :: rest) := by
              simp only [allStages, if_neg hsch, List.mem_append, List.mem_flatMap]
              exact Or.inl ⟨p, hp, List.mem_map_of_mem _ hst⟩
            have := hd _ this
            simp only [Bool.and_eq_true] at this
            exact this.2
        simp only [collectDelays, if_neg hsch]
        rw [collectDelaysPortions_eq station ref ps hsplit.2]
        simp only [Option.bind_eq_bind, Option.some_bind]
        rw [ih hwf' hsplit.1]
        simp only [Option.some_bind]
        unfold delaysSpec
        simp [allStages, if_neg hsch, List.filterMap_append]

theorem mem_delaysSpec (data : Dataset) (ref : DateT) (rec : DelayRecord) :
    rec ∈ delaysSpec data ref ↔
      ∃ s ∈ allStages data, ∃ e, parse_date s.2.2.«end» = some e ∧
        dateLt e ref = true ∧ s.2.2.status ≠ "completed" ∧
        rec = delayRecordOf ref s e := by
  unfold delaysSpec
  rw [List.mem_filterMap]
  constructor
  · rintro ⟨s, hs, hf⟩
    rcases hp : parse_date s.2.2.«end» with _ | e
    · rw [hp] at hf
      exact Option.noConfusion hf
    · rw [hp] at hf
      dsimp only at hf
      by_cases hc : (dateLt e ref && !(s.2.2.status == "completed")) = true
      · rw [if_pos hc] at hf
        obtain rfl := (Option.some.inj hf).symm
        simp only [Bool.and_eq_true, Bool.not_eq_eq_eq_not, Bool.not_true,
          beq_eq_false_iff_ne, ne_eq] at hc
        exact ⟨s, hs, e, hp, hc.1, hc.2, rfl⟩
      · rw [if_neg hc] at hf
        exact Option.noConfusion hf
  · rintro ⟨s, hs, e, hp, hlt, hst, rfl⟩
    refine ⟨s, hs, ?_⟩
    rw [hp]
    dsimp only
    rw [if_pos]
    simp only [Bool.and_eq_true, Bool.not_eq_eq_eq_not, Bool.not_true,
      beq_eq_false_iff_ne, ne_eq]
    exact ⟨hlt, hst⟩

/--
**C1**: for every well-formed dataset whose stage end dates parse and
every parsed reference date, `check_delays` returns exactly the stages
with `stage.end` strictly before the reference date and status other
than `"completed"` (an `end` equal to the reference date, or a
`"completed"` status, is never reported), each with
`days_overdue = referenceDate - stage.end` in days, stable-sorted
descending on `days_overdue` with ties kept in dataset traversal order.
-/
theorem check_delays_exact (data : Dataset) (r : String) (now ref : DateT)
    (hwf : wellFormedB data = true) (hd : stageDatesOkB data = true)
    (hr : parse_date r = some ref) :
    ∃ out, check_delays data (some r) now = some out ∧
      out = (delaysSpec data ref).insertionSort
        (fun a b => b.days_overdue ≤ a.days_overdue) ∧
      List.Sorted (fun a b => b.days_overdue ≤ a.days_overdue) out ∧
      (∀ rec, rec ∈ out ↔ ∃ s ∈ allStages data, ∃ e,
        parse_date s.2.2.«end» = some e ∧ dateLt e ref = true ∧
        s.2.2.status ≠ "completed" ∧ rec = delayRecordOf ref s e) ∧
      (∀ k : Int, out.filter (fun x => x.days_overdue == k) =
        (delaysSpec data ref).filter (fun x => x.days_overdue == k)) := by
  haveI : IsTotal DelayRecord (fun a b => b.days_overdue ≤ a.days_overdue) :=
    ⟨fun a b => Int.le_total b.days_overdue a.days_overdue⟩
  haveI : IsTrans DelayRecord (fun a b => b.days_overdue ≤ a.days_overdue) :=
    ⟨fun _ _ _ h1 h2 => le_trans h2 h1⟩
  refine ⟨_, ?_, rfl, ?_, ?_, ?_⟩
  · unfold check_delays
    dsimp only
    rw [hr]
    dsimp only
    rw [collectDelays_eq data ref hwf hd]
    rfl
  · exact List.sorted_insertionSort _ _
  · intro rec
    rw [List.mem_insertionSort, mem_delaysSpec]
  · intro k
    apply insertionSort_filter
    intro a b ha hb
    rw [beq_iff_eq] at ha hb
    rw [ha, hb]

/-- Witness for **C1** at `fixture5` and reference date `2024-02-01`. -/
theorem check_delays_exact_witness :
    (wellFormedB fixture5 = true ∧ stageDatesOkB fixture5 = true ∧
      parse_date "2024-02-01" = some ⟨2024, 2, 1⟩) ∧
    ∃ out, check_delays fixture5 (some "2024-02-01") ⟨2030, 1, 1⟩ = some out ∧
      out = (delaysSpec fixture5 ⟨2024, 2, 1⟩).insertionSort
        (fun a b => b.days_overdue ≤ a.days_overdue) ∧
      List.Sorted (fun a b => b.days_overdue ≤ a.days_overdue) out ∧
      (∀ rec, rec ∈ out ↔ ∃ s ∈ allStages fixture5, ∃ e,
        parse_date s.2.2.«end» = some e ∧ dateLt e ⟨2024, 2, 1⟩ = true ∧
        s.2.2.status ≠ "completed" ∧ rec = delayRecordOf ⟨2024, 2, 1⟩ s e) ∧
      (∀ k : Int, out.filter (fun x => x.days_overdue == k) =
        (delaysSpec fixture5 ⟨2024, 2, 1⟩).filter (fun x => x.days_overdue == k)) :=
  ⟨⟨by decide, by decide, by decide⟩,
    check_delays_exact fixture5 "2024-02-01" ⟨2030, 1, 1⟩ ⟨2024, 2, 1⟩
      (by decide) (by decide) (by decide)⟩

/-! ### The milestone-collection loop equals its specification -/

theorem canonicalDateB_spec {s : String} (h : canonicalDateB s = true) :
    ∃ dt, parse_date s = some dt ∧ fmtDate dt = s := by
  unfold canonicalDateB at h
  rcases hp : parse_date s with _ | dt
  · rw [hp] at h
    exact Bool.noConfusion h
  · rw [hp] at h
    rw [beq_iff_eq] at h
    exact ⟨dt, rfl, h⟩

theorem parse_date_validB {s : String} {dt : DateT} (h : parse_date s = some dt) :
    validDateB dt = true := by
  have hb := parse_date_valid h
  unfold validDateB
  simp only [Bool.and_eq_true, decide_eq_true_eq]
  omega

theorem milestoneDatesOk_of_canonical {data : Dataset}
    (h : milestoneDatesCanonicalB data = true) : milestoneDatesOkB data = true := by
  unfold milestoneDatesCanonicalB at h
  unfold milestoneDatesOkB
  rw [List.all_eq_true] at h ⊢
  intro hit hh
  obtain ⟨dt, hp, _⟩ := canonicalDateB_spec (h hit hh)
  rw [hp]
  rfl

theorem collectHitsMs_eq (station portion stname : String) (ds de : DateT)
    (ml : List Milestone)
    (h : ∀ m ∈ ml, (parse_date m.date).isSome = true) :
    collectHitsMs station portion stname ds de ml =
      some ((ml.map (fun m =>
          (⟨station, portion, stname, m.name, m.date, m.status⟩ : MilestoneHit))).filter
        (fun hit =>
          match parse_date hit.date with
          | some d => dateLe ds d && dateLe d de
          | none => false)) := by
  induction ml with
  | nil => rfl
  | cons m t ih =>
    obtain ⟨d, hdp⟩ := Option.isSome_iff_exists.mp (h m (List.mem_cons_self m t))
    have ht := ih (fun x hx => h x (List.mem_cons_of_mem m hx))
    simp only [collectHitsMs, hdp, Option.bind_eq_bind, Option.some_bind, ht,
      List.map_cons, List.filter_cons]
    by_cases hc : (dateLe ds d && dateLe d de) = true
    · simp [hdp, hc]
    · simp only [Bool.not_eq_true] at hc
      simp [hdp, hc]

theorem collectHitsStages_eq (station portion : String) (ds de : DateT)
    (stages : List Stage)
    (h : ∀ st ∈ stages, ∀ m ∈ st.milestones, (parse_date m.date).isSome = true) :
    collectHitsStages station portion ds de stages =
      some ((stages.flatMap (fun st =>
          st.milestones.map (fun m =>
            (⟨station, portion, st.name, m.name, m.date, m.status⟩ : MilestoneHit)))).filter
        (fun hit =>
          match parse_date hit.date with
          | some d => dateLe ds d && dateLe d de
          | none => false)) := by
  induction stages with
  | nil => rfl
  | cons st t ih =>
    have hst := collectHitsMs_eq station portion st.name ds de st.milestones
      (fun m hm => h st (List.mem_cons_self st t) m hm)
    have ht := ih (fun x hx m hm => h x (List.mem_cons_of_mem st hx) m hm)
    simp only [collectHitsStages, hst, Option.bind_eq_bind, Option.some_bind, ht,
      List.flatMap_cons, List.filter_append]

theorem collectHitsPortions_eq (station : String) (ds de : DateT)
    (ps : List (String × List Stage))
    (h : ∀ p ∈ ps, ∀ st ∈ p.2, ∀ m ∈ st.milestones, (parse_date m.date).isSome = true) :
    collectHitsPortions station ds de ps =
      some ((ps.flatMap (fun p => p.2.flatMap (fun st =>
          st.milestones.map (fun m =>
            (⟨station, p.1, st.name, m.name, m.date, m.status⟩ : MilestoneHit))))).filter
        (fun hit =>
          match parse_date hit.date with
          | some d => dateLe ds d && dateLe d de
          | none => false)) := by
  induction ps with
  | nil => rfl
  | cons p t ih =>
    have hp := collectHitsStages_eq station p.1 ds de p.2
      (fun st hst m hm => h p (List.mem_cons_self p t) st hst m hm)
    have ht := ih (fun q hq st hst m hm => h q (List.mem_cons_of_mem p hq) st hst m hm)
    simp only [collectHitsPortions, hp, Option.bind_eq_bind, Option.some_bind, ht,
      List.flatMap_cons, List.filter_append]

theorem allStages_cons_mapping (station : String) (ps : List (String × List Stage))
    (rest : Dataset) :
    allStages ((station, StationVal.mapping ps) :: rest) =
      (if station = "$schema" then []
       else ps.flatMap (fun p => p.2.map (fun st => (station, p.1, st)))) ++
        allStages rest := rfl

theorem allStages_cons_scalar (station sv : String) (rest : Dataset) :
    allStages ((station, StationVal.scalar sv) :: rest) = allStages rest := rfl

theorem allHits_cons_mapping (station : String) (ps : List (String × List Stage))
    (rest : Dataset) :
    allHits ((station, StationVal.mapping ps) :: rest) =
      (if station = "$schema" then []
       else ps.flatMap (fun p => p.2.flatMap (fun st =>
         st.milestones.map (fun m =>
           (⟨station, p.1, st.name, m.name, m.date, m.status⟩ : MilestoneHit))))) ++
        allHits rest := by
  unfold allHits
  rw [allStages_cons_mapping]
  by_cases hsch : station = "$schema"
  · simp [hsch]
  · rw [if_neg hsch, if_neg hsch, List.flatMap_append]
    congr 1
    rw [List.flatMap_assoc]
    congr 1
    funext p
    rw [List.flatMap_map]

theorem collectMilestones_eq (data : Dataset) (ds de : DateT)
    (hwf : wellFormedB data = true) (hms : milestoneDatesOkB data = true) :
    collectMilestones data ds de = some (hitsInRange data ds de) := by
  induction data with
  | nil => rfl
  | cons entry rest ih =>
    obtain ⟨station, v⟩ := entry
    match v with
    | StationVal.scalar sv =>
      have hsch : station = "$schema" := by
        simp only [wellFormedB, Bool.and_eq_true, beq_iff_eq] at hwf
        exact hwf.1
      have hwf' : wellFormedB rest = true := by
        simp only [wellFormedB, Bool.and_eq_true] at hwf
        exact hwf.2
      have hms' : milestoneDatesOkB rest = true := by
        unfold milestoneDatesOkB at hms ⊢
        simpa [allHits, allStages] using hms
      simp only [collectMilestones, hsch, if_pos rfl]
      rw [ih hwf' hms']
      unfold hitsInRange
      simp [allHits, allStages]
    | StationVal.mapping ps =>
      have hwf' : wellFormedB rest = true := by
        simpa [wellFormedB] using hwf
      have hcons := allHits_cons_mapping station ps rest
      by_cases hsch : station = "$schema"
      · subst hsch
        rw [if_pos rfl] at hcons
        rw [List.nil_append] at hcons
        have hms' : milestoneDatesOkB rest = true := by
          unfold milestoneDatesOkB at hms ⊢
          rw [hcons] at hms
          exact hms
        have hstep : collectMilestones (("$schema", StationVal.mapping ps) :: rest) ds de =
            collectMilestones rest ds de := by
          simp [collectMilestones]
        rw [hstep, ih hwf' hms']
        unfold hitsInRange
        rw [hcons]
      · rw [if_neg hsch] at hcons
        have hmsall : milestoneDatesOkB rest = true ∧
            ∀ p ∈ ps, ∀ st ∈ p.2, ∀ m ∈ st.milestones,
              (parse_date m.date).isSome = true := by
          unfold milestoneDatesOkB at hms
          rw [hcons, List.all_append] at hms
          rw [Bool.and_eq_true] at hms
          constructor
          · exact hms.2
          · intro p hp st hst m hm
            have h1 := hms.1
            rw [List.all_eq_true] at h1
            refine h1 (⟨station, p.1, st.name, m.name, m.date, m.status⟩ : MilestoneHit) ?_
            rw [List.mem_flatMap]
            refine ⟨p, hp, ?_⟩
            rw [List.mem_flatMap]
            exact ⟨st, hst, List.mem_map_of_mem _ hm⟩
        simp only [collectMilestones, if_neg hsch]
        rw [collectHitsPortions_eq station ds de ps hmsall.2]
        simp only [Option.bind_eq_bind, Option.some_bind]
        rw [ih hwf' hmsall.1]
        simp only [Option.some_bind]
        unfold hitsInRange
        rw [hcons]
        rw [List.filter_append]

theorem dateLt_iff (a b : DateT) :
    dateLt a b = true ↔
      (a.year < b.year ∨ (a.year = b.year ∧
        (a.month < b.month ∨ (a.month = b.month ∧ a.day < b.day)))) := by
  unfold dateLt
  simp [Bool.or_eq_true, Bool.and_eq_true, decide_eq_true_eq, beq_iff_eq]

theorem dateLe_iff (a b : DateT) :
    dateLe a b = true ↔
      (a.year < b.year ∨ (a.year = b.year ∧
        (a.month < b.month ∨ (a.month = b.month ∧ a.day ≤ b.day)))) := by
  unfold dateLe
  rw [Bool.or_eq_true, dateLt_iff, beq_iff_eq]
  cases a; cases b
  simp only [DateT.mk.injEq]
  constructor
  · intro h
    rcases h with h | ⟨h1, h2, h3⟩ <;> omega
  · intro h
    omega

/--
**C2**: for every well-formed dataset whose milestone dates are canonical
`YYYY-MM-DD` strings and every pair of parsed bound dates, the
milestones-in-range query returns exactly the milestones with
`startDate <= date <= endDate` (inclusive on both ends), stable-sorted
ascending on the milestone date with ties kept in input traversal order
(station, then portion, then stage, then milestone).
-/
theorem query_milestones_range_spec (data : Dataset) (s e : String) (ds de : DateT)
    (hwf : wellFormedB data = true) (hcanon : milestoneDatesCanonicalB data = true)
    (hs : parse_date s = some ds) (he : parse_date e = some de) :
    ∃ out, query_milestones_by_date_range data s e = some out ∧
      out = (hitsInRange data ds de).insertionSort
        (fun a b => pDateVal a ≤ pDateVal b) ∧
      List.Sorted (fun a b => pDateVal a ≤ pDateVal b) out ∧
      (∀ hit, hit ∈ out ↔ hit ∈ allHits data ∧ ∃ d, parse_date hit.date = some d ∧
        dateLe ds d = true ∧ dateLe d de = true) ∧
      (∀ k : Nat, out.filter (fun x => pDateVal x == k) =
        (hitsInRange data ds de).filter (fun x => pDateVal x == k)) := by
  haveI : IsTotal MilestoneHit (fun a b => pDateVal a ≤ pDateVal b) :=
    ⟨fun a b => Nat.le_total (pDateVal a) (pDateVal b)⟩
  haveI : IsTrans MilestoneHit (fun a b => pDateVal a ≤ pDateVal b) :=
    ⟨fun _ _ _ h1 h2 => le_trans h1 h2⟩
  have hok := milestoneDatesOk_of_canonical hcanon
  have hcol := collectMilestones_eq data ds de hwf hok
  have hcanon' : ∀ hit ∈ allHits data, canonicalDateB hit.date = true := by
    unfold milestoneDatesCanonicalB at hcanon
    rw [List.all_eq_true] at hcanon
    exact hcanon
  have hagree : ∀ a ∈ hitsInRange data ds de, ∀ b ∈ hitsInRange data ds de,
      ((strLe a.date b.date = true) ↔ (pDateVal a ≤ pDateVal b)) := by
    intro a ha b hb
    obtain ⟨da, hpa, hfa⟩ := canonicalDateB_spec (hcanon' a (List.mem_of_mem_filter ha))
    obtain ⟨db, hpb, hfb⟩ := canonicalDateB_spec (hcanon' b (List.mem_of_mem_filter hb))
    rw [← hfa, ← hfb,
      strLe_fmtDate_iff da db (parse_date_validB hpa) (parse_date_validB hpb)]
    unfold pDateVal
    rw [hpa, hpb]
  refine ⟨_, ?_, rfl, ?_, ?_, ?_⟩
  · unfold query_milestones_by_date_range
    rw [hs, he]
    dsimp only
    rw [hcol]
    rw [Option.map_some']
    congr 1
    exact insertionSort_congr _ hagree
  · exact List.sorted_insertionSort _ _
  · intro hit
    rw [List.mem_insertionSort]
    unfold hitsInRange
    rw [List.mem_filter]
    constructor
    · rintro ⟨hmem, hpred⟩
      refine ⟨hmem, ?_⟩
      rcases hp : parse_date hit.date with _ | d
      · rw [hp] at hpred
        exact Bool.noConfusion hpred
      · rw [hp] at hpred
        dsimp only at hpred
        rw [Bool.and_eq_true] at hpred
        exact ⟨d, rfl, hpred.1, hpred.2⟩
    · rintro ⟨hmem, d, hp, h1, h2⟩
      refine ⟨hmem, ?_⟩
      rw [hp]
      dsimp only
      rw [Bool.and_eq_true]
      exact ⟨h1, h2⟩
  · intro k
    apply insertionSort_filter
    intro a b ha hb
    rw [beq_iff_eq] at ha hb
    rw [ha, hb]

/-- Witness for **C2** at `fixture5` with the range
`2024-01-01 .. 2024-12-31`. -/
theorem query_milestones_range_spec_witness :
    (wellFormedB fixture5 = true ∧ milestoneDatesCanonicalB fixture5 = true ∧
      parse_date "2024-01-01" = some ⟨2024, 1, 1⟩ ∧
      parse_date "2024-12-31" = some ⟨2024, 12, 31⟩) ∧
    ∃ out, query_milestones_by_date_range fixture5 "2024-01-01" "2024-12-31" = some out ∧
      out = (hitsInRange fixture5 ⟨2024, 1, 1⟩ ⟨2024, 12, 31⟩).insertionSort
        (fun a b => pDateVal a ≤ pDateVal b) ∧
      List.Sorted (fun a b => pDateVal a ≤ pDateVal b) out ∧
      (∀ hit, hit ∈ out ↔ hit ∈ allHits fixture5 ∧ ∃ d, parse_date hit.date = some d ∧
        dateLe ⟨2024, 1, 1⟩ d = true ∧ dateLe d ⟨2024, 12, 31⟩ = true) ∧
      (∀ k : Nat, out.filter (fun x => pDateVal x == k) =
        (hitsInRange fixture5 ⟨2024, 1, 1⟩ ⟨2024, 12, 31⟩).filter
          (fun x => pDateVal x == k)) :=
  ⟨⟨by decide, by decide, by decide, by decide⟩,
    query_milestones_range_spec fixture5 "2024-01-01" "2024-12-31"
      ⟨2024, 1, 1⟩ ⟨2024, 12, 31⟩ (by decide) (by decide) (by decide) (by decide)⟩

/--
**C10**: a reversed range (startDate after endDate) yields the empty
list, not an error: no milestone satisfies the inclusive bounds and the
query returns successfully.
-/
theorem reversed_range_empty (data : Dataset) (s e : String) (ds de : DateT)
    (hwf : wellFormedB data = true) (hms : milestoneDatesOkB data = true)
    (hs : parse_date s = some ds) (he : parse_date e = some de)
    (hrev : dateLt de ds = true) :
    query_milestones_by_date_range data s e = some [] := by
  have hcol := collectMilestones_eq data ds de hwf hms
  have hempty : hitsInRange data ds de = [] := by
    unfold hitsInRange
    rw [List.filter_eq_nil_iff]
    intro a _
    rcases hp : parse_date a.date with _ | d
    · simp
    · dsimp only
      intro hb
      rw [Bool.and_eq_true] at hb
      obtain ⟨h1, h2⟩ := hb
      rw [dateLe_iff] at h1 h2
      rw [dateLt_iff] at hrev
      omega
  unfold query_milestones_by_date_range
  rw [hs, he]
  dsimp only
  rw [hcol, hempty]
  rfl

/-- Witness for **C10** at `fixture5` with the reversed range
`2024-12-31 .. 2024-01-01`. -/
theorem reversed_range_empty_witness :
    (wellFormedB fixture5 = true ∧ milestoneDatesOkB fixture5 = true ∧
      parse_date "2024-12-31" = some ⟨2024, 12, 31⟩ ∧
      parse_date "2024-01-01" = some ⟨2024, 1, 1⟩ ∧
      dateLt ⟨2024, 1, 1⟩ ⟨2024, 12, 31⟩ = true) ∧
    query_milestones_by_date_range fixture5 "2024-12-31" "2024-01-01" = some [] :=
  ⟨⟨by decide, by decide, by decide, by decide, by decide⟩,
    reversed_range_empty fixture5 "2024-12-31" "2024-01-01"
      ⟨2024, 12, 31⟩ ⟨2024, 1, 1⟩ (by decide) (by decide) (by decide) (by decide)
      (by decide)⟩

/--
**C6** (amended): the delay-detection reference date is an injectable
parameter, and once it is supplied explicitly the result does not depend
on the ambient clock reading at all — two runs with different clock
values are identical.  (The layout's now marker, by contrast, is
hard-wired: see the counterexample.)
-/
theorem check_delays_clock_independent (data : Dataset) (r : String) (n1 n2 : DateT) :
    check_delays data (some r) n1 = check_delays data (some r) n2 := rfl

/--
Counterexample to **C6** as stated: the now marker of
`visualize_roadmap` reads `datetime.now()` directly (src/app/main.py
line 343) and the function has no parameter for it, so the layout output
depends on the ambient clock reading: on `fixture2` a clock reading
inside the stage span and one outside it give different outputs (the
today line is present in one and absent in the other).
-/
theorem visualize_clock_counterexample :
    (visualize_roadmap fixture2 ⟨2024, 1, 5⟩).map (fun l => l.today_marker) ≠
      (visualize_roadmap fixture2 ⟨2025, 1, 1⟩).map (fun l => l.today_marker) := by
  decide

/--
**C8** (amended): `parse_date` succeeds and returns the corresponding
date exactly when the input has the shape actually accepted by
`strptime("%Y-%m-%d")`: four year digits, a dash, one or two month
digits, a dash, one or two day digits, nothing else, denoting a
constructible date — zero-padding of month and day is optional, so the
strict `YYYY-MM-DD` shape is sufficient but not necessary.
-/
theorem parse_date_lenient_characterization (s : String) (dt : DateT) :
    parse_date s = some dt ↔ LenientShape s dt :=
  parse_date_eq_some_iff s dt

/--
Counterexample to **C8** as stated: `"2024-1-5"` does not have the
strict zero-padded `YYYY-MM-DD` shape, yet `parse_date` accepts it and
returns January 5th, 2024 instead of failing.
-/
theorem parse_date_strict_counterexample :
    parse_date "2024-1-5" = some ⟨2024, 1, 5⟩ ∧ ¬ StrictShape "2024-1-5" := by
  constructor
  · decide
  · rintro ⟨dt, _, hsv⟩
    have h1 : ("2024-1-5" : String).data.length = 8 := by decide
    rw [hsv, fmtDate_data_length] at h1
    exact absurd h1 (by decide)

/-! ### Station progress -/

theorem completedInfoCount_map (stages : List Stage) :
    completedInfoCount (stages.map (fun st =>
      (⟨st.name, st.status, st.start, st.«end»⟩ : StageInfo))) =
      completedCount stages := by
  unfold completedInfoCount completedCount
  rw [List.filter_map, List.length_map]
  rfl

theorem weighted_term (c len : Nat) (hc : c ≤ len) :
    (len : ℚ) * (if len = 0 then 0 else (c : ℚ) / (len : ℚ) * 100) = (c : ℚ) * 100 := by
  rcases Nat.eq_zero_or_pos len with h0 | hpos
  · subst h0
    obtain rfl : c = 0 := by omega
    simp
  · rw [if_neg (by omega)]
    have hne : (len : ℚ) ≠ 0 := Nat.cast_ne_zero.mpr (by omega)
    field_simp

theorem weighted_sum_eq (ps : List (String × List Stage)) :
    ((ps.map (fun p => (p.2.length : ℚ) *
        (if p.2.length = 0 then 0
         else (completedCount p.2 : ℚ) / (p.2.length : ℚ) * 100))).sum) =
      100 * ((ps.map (fun p => completedCount p.2)).sum : ℚ) := by
  induction ps with
  | nil => simp
  | cons p t ih =>
    simp only [List.map_cons, List.sum_cons, ih]
    have hle : completedCount p.2 ≤ p.2.length := List.length_filter_le _ _
    rw [weighted_term (completedCount p.2) p.2.length hle]
    push_cast
    ring

theorem fl_zero : fl 0 = 0 := by
  unfold fl
  rw [if_pos rfl]

theorem roundHalfEven_eq_of_lt (x : ℚ) (f : ℤ)
    (h1 : (f : ℚ) ≤ x) (h2 : x - (f : ℚ) < 1 / 2) :
    roundHalfEven x = f := by
  have hf : ⌊x⌋ = f := Int.floor_eq_iff.mpr ⟨h1, by linarith⟩
  unfold roundHalfEven
  rw [hf]
  rw [if_pos h2]

/-- `fl` evaluated through an explicit exponent `e` (pinned by the two
power bounds) and an explicit rounded significand `m`. -/
theorem fl_eq_of_bounds (q : ℚ) (e m : ℤ) (h0 : 0 < q)
    (h1 : (2 : ℚ) ^ e ≤ q) (h2 : q < (2 : ℚ) ^ (e + 1))
    (hm : roundHalfEven (q * (2 : ℚ) ^ ((52 : ℤ) - e)) = m) :
    fl q = (m : ℚ) * (2 : ℚ) ^ (e - 52) := by
  have hb : (1 : ℕ) < 2 := one_lt_two
  have h1n : ((2 : ℕ) : ℚ) ^ e ≤ q := by exact_mod_cast h1
  have h2n : q < ((2 : ℕ) : ℚ) ^ (e + 1) := by exact_mod_cast h2
  have hlog : Int.log 2 q = e := by
    have hle : e ≤ Int.log 2 q := (Int.zpow_le_iff_le_log hb h0).mp h1n
    have hlt : Int.log 2 q < e + 1 := (Int.lt_zpow_iff_log_lt hb h0).mp h2n
    omega
  unfold fl flPos
  rw [if_neg (ne_of_gt h0), if_neg (not_lt.mpr h0.le), hlog, hm]

/-- `1 / 2` is a dyadic rational well inside binary64 range, so `fl`
keeps it exact. -/
theorem fl_half : fl (1 / 2 : ℚ) = 1 / 2 := by
  have hm : roundHalfEven ((1 / 2 : ℚ) * (2 : ℚ) ^ ((52 : ℤ) - (-1 : ℤ))) =
      4503599627370496 := by
    apply roundHalfEven_eq_of_lt
    · norm_num
    · norm_num
  have h := fl_eq_of_bounds (1 / 2 : ℚ) (-1) 4503599627370496 (by norm_num)
      (by norm_num) (by norm_num) hm
  rw [h]
  norm_num

/-- Small integers are exact binary64 values. -/
theorem fl_fifty : fl (50 : ℚ) = 50 := by
  have hm : roundHalfEven ((50 : ℚ) * (2 : ℚ) ^ ((52 : ℤ) - (5 : ℤ))) =
      7036874417766400 := by
    apply roundHalfEven_eq_of_lt
    · norm_num
    · norm_num
  have h := fl_eq_of_bounds (50 : ℚ) 5 7036874417766400 (by norm_num)
      (by norm_num) (by norm_num) hm
  rw [h]
  norm_num

/-- The binary64 value of `1 / 3`: significand `(2 ^ 54 - 1) / 3`
(binary `0101…01`), rounded down since the discarded tail is `1 / 3` of
an ulp. -/
theorem fl_one_third : fl (1 / 3 : ℚ) = 6004799503160661 / 2 ^ 54 := by
  have hm : roundHalfEven ((1 / 3 : ℚ) * (2 : ℚ) ^ ((52 : ℤ) - (-2 : ℤ))) =
      6004799503160661 := by
    apply roundHalfEven_eq_of_lt
    · norm_num
    · norm_num
  have h := fl_eq_of_bounds (1 / 3 : ℚ) (-2) 6004799503160661 (by norm_num)
      (by norm_num) (by norm_num) hm
  rw [h]
  norm_num

/-- The float the program stores for a `1 / 3` overall fraction:
`fl(fl(1/3) * 100) = 4691249611844266 / 2 ^ 47` (`33.33333333333333`),
which is NOT the binary64 value of `100 / 3` (that one is
`4691249611844267 / 2 ^ 47`, `33.333333333333336`). -/
theorem fl_third_times_100 :
    fl (fl (1 / 3 : ℚ) * 100) = 4691249611844266 / 2 ^ 47 := by
  rw [fl_one_third]
  have hq : (6004799503160661 / 2 ^ 54 : ℚ) * 100 = 600479950316066100 / 2 ^ 54 := by
    norm_num
  rw [hq]
  have hm : roundHalfEven ((600479950316066100 / 2 ^ 54 : ℚ) *
      (2 : ℚ) ^ ((52 : ℤ) - (5 : ℤ))) = 4691249611844266 := by
    apply roundHalfEven_eq_of_lt
    · norm_num
    · norm_num
  have h := fl_eq_of_bounds (600479950316066100 / 2 ^ 54 : ℚ) 5 4691249611844266
      (by norm_num) (by norm_num) (by norm_num) hm
  rw [h]
  norm_num

/--
Counterexample to **C3** as stated: on `fixtureC3` (portions of 1 and 2
stages, one stage completed overall) the stage-count-weighted sum of the
STORED portion progresses divided by the total stage count is exactly
`100 / 3`, while the computed `overall_progress` is the float
`fl(fl(1/3) * 100) = 4691249611844266 / 2 ^ 47`: under the program's
binary64 arithmetic the weighted-sum identity fails.
-/
theorem station_progress_float_counterexample :
    query_status_by_station fixtureC3 "A" = StatusResult.ok summaryC3 ∧
    summaryWeightedSum summaryC3 / (summaryTotalStages summaryC3 : ℚ) ≠
      summaryC3.overall_progress := by
  constructor
  · unfold query_status_by_station
    rw [show lookupStation fixtureC3 "A" = some (StationVal.mapping
        [("P1", [{ name := "S1", start := "2024-01-01", «end» := "2024-01-10",
                   status := "planned", milestones := [] }]),
         ("P2", [{ name := "S2", start := "2024-01-01", «end» := "2024-01-10",
                   status := "completed", milestones := [] },
                 { name := "S3", start := "2024-01-11", «end» := "2024-01-20",
                   status := "planned", milestones := [] }])]) from by decide]
    dsimp only
    rw [if_neg (by decide : ¬("A" : String) = "$schema")]
    have hc1 : completedCount
        [{ name := "S1", start := "2024-01-01", «end» := "2024-01-10",
           status := "planned", milestones := [] }] = 0 := by
      decide
    have hc2 : completedCount
        [{ name := "S2", start := "2024-01-01", «end» := "2024-01-10",
           status := "completed", milestones := [] },
         { name := "S3", start := "2024-01-11", «end» := "2024-01-20",
           status := "planned", milestones := [] }] = 1 := by
      decide
    simp only [summaryC3, StatusResult.ok.injEq, StationSummary.mk.injEq,
      List.map_cons, List.map_nil, List.cons.injEq, Prod.mk.injEq,
      PortionInfo.mk.injEq, List.length_cons, List.length_nil, List.sum_cons,
      List.sum_nil, hc1, hc2, true_and, and_true]
    norm_num [fl_zero, fl_half, fl_fifty, fl_third_times_100]
  · have hL : summaryWeightedSum summaryC3 /
        (summaryTotalStages summaryC3 : ℚ) = 100 / 3 := by
      norm_num [summaryWeightedSum, summaryTotalStages, summaryC3]
    rw [hL]
    show (100 : ℚ) / 3 ≠ summaryC3.overall_progress
    norm_num [summaryC3]

/--
**C3** (amended): whenever the station-status query succeeds, the
overall progress is the binary64 evaluation of the completed-over-total
stage fraction across ALL portions of the station times 100 (0 with no
stages), each portion's progress is the binary64 evaluation of its own
completed-over-total fraction times 100 (0 with no stages), and the
stage-count-weighted sum identity holds for the EXACT fractions these
floats round: the weighted sum of the exact portion fractions divided by
the total stage count equals the exact overall fraction.  For the stored
float values themselves the identity fails in general (see the
counterexample).
-/
theorem station_progress_spec (data : Dataset) (station : String)
    (summary : StationSummary)
    (h : query_status_by_station data station = StatusResult.ok summary) :
    summary.overall_progress =
      (if summaryTotalStages summary = 0 then 0
       else fl (fl ((summaryCompletedStages summary : ℚ) /
         (summaryTotalStages summary : ℚ)) * 100)) ∧
    (∀ pi ∈ summary.portions, pi.2.progress =
      (if pi.2.stages.length = 0 then 0
       else fl (fl ((completedInfoCount pi.2.stages : ℚ) /
         (pi.2.stages.length : ℚ)) * 100))) ∧
    summaryWeightedExact summary / (summaryTotalStages summary : ℚ) =
      (if summaryTotalStages summary = 0 then 0
       else (summaryCompletedStages summary : ℚ) /
         (summaryTotalStages summary : ℚ) * 100) := by
  unfold query_status_by_station at h
  rcases hl : lookupStation data station with _ | v
  · rw [hl] at h
    exact StatusResult.noConfusion h
  rw [hl] at h
  dsimp only at h
  by_cases hsch : station = "$schema"
  · rw [if_pos hsch] at h
    exact StatusResult.noConfusion h
  rw [if_neg hsch] at h
  cases v with
  | scalar sv =>
    dsimp only at h
    exact StatusResult.noConfusion h
  | mapping ps =>
    dsimp only at h
    obtain rfl := (StatusResult.ok.inj h)
    refine ⟨?_, ?_, ?_⟩
    · dsimp only [summaryTotalStages, summaryCompletedStages]
      simp only [List.map_map, Function.comp_def, List.length_map, completedInfoCount_map]
    · intro pi hpi
      simp only [List.mem_map] at hpi
      obtain ⟨p, _, rfl⟩ := hpi
      dsimp only
      rw [completedInfoCount_map, List.length_map]
    · dsimp only [summaryWeightedExact, summaryTotalStages, summaryCompletedStages]
      simp only [List.map_map, Function.comp_def, List.length_map, completedInfoCount_map]
      rw [weighted_sum_eq ps]
      rcases Nat.eq_zero_or_pos ((ps.map (fun p => p.2.length)).sum) with h0 | hpos
      · rw [h0, if_pos rfl]
        have hc0 : ((ps.map (fun p => completedCount p.2)).sum) = 0 := by
          have hle : ((ps.map (fun p => completedCount p.2)).sum) ≤
              ((ps.map (fun p => p.2.length)).sum) := by
            apply List.sum_le_sum
            intro p _
            exact List.length_filter_le _ _
          omega
        rw [hc0]
        simp
      · rw [if_neg (by omega)]
        ring

/-- Witness for **C3** at `fixture2`, station `"A"`. -/
theorem station_progress_spec_witness :
    ∃ summary, query_status_by_station fixture2 "A" = StatusResult.ok summary ∧
      (summary.overall_progress =
        (if summaryTotalStages summary = 0 then 0
         else fl (fl ((summaryCompletedStages summary : ℚ) /
           (summaryTotalStages summary : ℚ)) * 100)) ∧
      (∀ pi ∈ summary.portions, pi.2.progress =
        (if pi.2.stages.length = 0 then 0
         else fl (fl ((completedInfoCount pi.2.stages : ℚ) /
           (pi.2.stages.length : ℚ)) * 100))) ∧
      summaryWeightedExact summary / (summaryTotalStages summary : ℚ) =
        (if summaryTotalStages summary = 0 then 0
         else (summaryCompletedStages summary : ℚ) /
           (summaryTotalStages summary : ℚ) * 100)) :=
  ⟨_, rfl, station_progress_spec fixture2 "A" _ rfl⟩

/-! ### Skip rule -/

theorem get_all_portions_wf (data : Dataset) (hwf : wellFormedB data = true) :
    get_all_portions data = some (portionPairs data) := by
  induction data with
  | nil => rfl
  | cons entry rest ih =>
    obtain ⟨station, v⟩ := entry
    cases v with
    | scalar sv =>
      have hsch : station = "$schema" := by
        simp only [wellFormedB, Bool.and_eq_true, beq_iff_eq] at hwf
        exact hwf.1
      have hwf' : wellFormedB rest = true := by
        simp only [wellFormedB, Bool.and_eq_true] at hwf
        exact hwf.2
      subst hsch
      simp only [get_all_portions, if_pos rfl, portionPairs]
      exact ih hwf'
    | mapping ps =>
      have hwf' : wellFormedB rest = true := by simpa [wellFormedB] using hwf
      by_cases hsch : station = "$schema"
      · subst hsch
        simp only [get_all_portions, if_pos rfl, portionPairs, if_pos rfl,
          List.nil_append]
        exact ih hwf'
      · simp only [get_all_portions, if_neg hsch, portionPairs, if_neg hsch]
        rw [ih hwf']
        rfl

theorem get_all_portions_no_schema (data : Dataset) (res : List (String × String))
    (h : get_all_portions data = some res) : ∀ pr ∈ res, pr.1 ≠ "$schema" := by
  induction data generalizing res with
  | nil =>
    obtain rfl : ([] : List (String × String)) = res := Option.some.inj h
    intro pr hpr
    exact absurd hpr (List.not_mem_nil pr)
  | cons entry rest ih =>
    obtain ⟨station, v⟩ := entry
    by_cases hsch : station = "$schema"
    · rw [show get_all_portions ((station, v) :: rest) = get_all_portions rest from by
        simp [get_all_portions, hsch]] at h
      exact ih res h
    · cases v with
      | scalar sv =>
        rw [show get_all_portions ((station, StationVal.scalar sv) :: rest) = none from by
          simp [get_all_portions, hsch]] at h
        exact Option.noConfusion h
      | mapping ps =>
        simp only [get_all_portions, if_neg hsch] at h
        rcases hr : get_all_portions rest with _ | tailres
        · rw [hr] at h
          exact Option.noConfusion h
        · rw [hr] at h
          dsimp only [Option.map_some'] at h
          obtain rfl := (Option.some.inj h).symm
          intro pr hpr
          rcases List.mem_append.mp hpr with hin | hin
          · obtain ⟨p, _, rfl⟩ := List.mem_map.mp hin
            exact hsch
          · exact ih tailres hr pr hin

/--
Counterexample to **C4** as stated: the code skips only the literal key
`"$schema"`.  A key that merely begins with the reserved marker
(`"$schemas"`) is traversed like a station — it appears in the portion
enumeration and the station-status query answers for it instead of
failing with `NotFound` — and a non-mapping value under any other key
makes the traversal raise an attribute error rather than being skipped.
-/
theorem skip_rule_counterexample :
    get_all_portions fixture3 = some [("$schemas", "P1")] ∧
    query_status_by_station fixture3 "$schemas" ≠ StatusResult.notFound ∧
    get_all_portions fixture4 = none := by
  refine ⟨by decide, ?_, by decide⟩
  intro h
  rw [show query_status_by_station fixture3 "$schemas" =
      StatusResult.ok { station := "$schemas", portions := [("P1",
        { stages := [], progress := 0 })], overall_progress := 0 } from rfl] at h
  exact StatusResult.noConfusion h

/--
**C4** (amended): every traversal skips exactly the top-level key equal
to `"$schema"`; the station-status query answers `NotFound` precisely
when the requested key is absent or equals `"$schema"`; on a well-formed
dataset the portion enumeration succeeds and lists exactly the portions
of the non-`"$schema"` entries, and `"$schema"` never appears in any
successful portion enumeration.
-/
theorem skip_rule_amended (data : Dataset) (station : String) :
    (query_status_by_station data station = StatusResult.notFound ↔
      (lookupStation data station = none ∨ station = "$schema")) ∧
    (wellFormedB data = true → get_all_portions data = some (portionPairs data)) ∧
    (∀ res, get_all_portions data = some res → ∀ pr ∈ res, pr.1 ≠ "$schema") := by
  refine ⟨?_, get_all_portions_wf data, fun res h => get_all_portions_no_schema data res h⟩
  unfold query_status_by_station
  rcases hl : lookupStation data station with _ | v
  · simp
  · dsimp only
    by_cases hsch : station = "$schema"
    · simp [hsch]
    · rw [if_neg hsch]
      cases v with
      | scalar sv =>
        simp [hsch]
      | mapping ps =>
        simp [hsch]

/-- Witness for **C4** at `fixture1` and a missing station key. -/
theorem skip_rule_amended_witness :
    wellFormedB fixture1 = true ∧
    get_all_portions fixture1 = some [("A", "P1")] ∧
    query_status_by_station fixture1 "Z" = StatusResult.notFound := by
  refine ⟨by decide, ?_, ?_⟩
  · have h := (skip_rule_amended fixture1 "Z").2.1 (by decide)
    rw [h]
    decide
  · exact ((skip_rule_amended fixture1 "Z").1).mpr (Or.inl (by decide))

/-! ### Legend and colors -/

theorem statusColor_unknown (s : String)
    (h : s ∉ ["completed", "in_progress", "planned", "delayed"]) :
    statusColor s = "#95a5a6" := by
  simp only [List.mem_cons, List.not_mem_nil, or_false, not_or] at h
  obtain ⟨h1, h2, h3, h4⟩ := h
  have e1 : (("completed" : String) == s) = false := by
    rw [beq_eq_false_iff_ne]
    exact fun hc => h1 hc.symm
  have e2 : (("in_progress" : String) == s) = false := by
    rw [beq_eq_false_iff_ne]
    exact fun hc => h2 hc.symm
  have e3 : (("planned" : String) == s) = false := by
    rw [beq_eq_false_iff_ne]
    exact fun hc => h3 hc.symm
  have e4 : (("delayed" : String) == s) = false := by
    rw [beq_eq_false_iff_ne]
    exact fun hc => h4 hc.symm
  simp [statusColor, status_colors, List.find?, e1, e2, e3, e4]

theorem buildBars_legend (ts : List GanttTask) :
    ∀ seen res, buildBars ts seen = some res →
      (res.1.filter (fun b => b.show_legend)).map (fun b => b.status) =
        firstSeenAux (ts.map (fun t => t.status)) seen := by
  induction ts with
  | nil =>
    intro seen res h
    obtain rfl := (Option.some.inj h).symm
    rfl
  | cons t ts ih =>
    intro seen res h
    unfold buildBars at h
    rcases hp1 : parse_date t.start with _ | d1
    · rw [hp1] at h
      exact Option.noConfusion h
    rcases hp2 : parse_date t.finish with _ | d2
    · rw [hp1, hp2] at h
      exact Option.noConfusion h
    rw [hp1, hp2] at h
    simp only [Option.bind_eq_bind, Option.some_bind] at h
    by_cases hmem : t.status ∈ seen
    · rw [if_pos (by simpa using hmem)] at h
      rcases hr : buildBars ts seen with _ | res'
      · rw [hr] at h
        exact Option.noConfusion h
      rw [hr] at h
      simp only [Option.some_bind] at h
      obtain rfl := (Option.some.inj h).symm
      simp only [List.map_cons, firstSeenAux, if_pos hmem]
      rw [List.filter_cons_of_neg (by simp [hmem])]
      exact ih seen res' hr
    · rw [if_neg (by simpa using hmem)] at h
      rcases hr : buildBars ts (t.status :: seen) with _ | res'
      · rw [hr] at h
        exact Option.noConfusion h
      rw [hr] at h
      simp only [Option.some_bind] at h
      obtain rfl := (Option.some.inj h).symm
      simp only [List.map_cons, firstSeenAux, if_neg hmem]
      rw [List.filter_cons_of_pos (by simp [hmem])]
      simp only [List.map_cons]
      rw [ih (t.status :: seen) res' hr]

theorem buildBars_colors (ts : List GanttTask) :
    ∀ seen res, buildBars ts seen = some res →
      ∀ b ∈ res.1, b.color = statusColor b.status := by
  induction ts with
  | nil =>
    intro seen res h
    obtain rfl := (Option.some.inj h).symm
    intro b hb
    exact absurd hb (List.not_mem_nil b)
  | cons t ts ih =>
    intro seen res h
    unfold buildBars at h
    rcases hp1 : parse_date t.start with _ | d1
    · rw [hp1] at h
      exact Option.noConfusion h
    rcases hp2 : parse_date t.finish with _ | d2
    · rw [hp1, hp2] at h
      exact Option.noConfusion h
    rw [hp1, hp2] at h
    simp only [Option.bind_eq_bind, Option.some_bind] at h
    rcases hr : buildBars ts (if decide (t.status ∈ seen) = true then seen
        else t.status :: seen) with _ | res'
    · rw [hr] at h
      exact Option.noConfusion h
    rw [hr] at h
    simp only [Option.some_bind] at h
    obtain rfl := (Option.some.inj h).symm
    intro b hb
    rcases List.mem_cons.mp hb with rfl | hb'
    · rfl
    · exact ih _ res' hr b hb'

/-- Inversion of a successful layout run: the intermediate passes and
the composition of the final record. -/
theorem visualize_roadmap_inv (data : Dataset) (today : DateT) (L : Layout)
    (h : visualize_roadmap data today = some L) :
    ∃ d0 drest rows bars mdates,
      allDates data = some (d0 :: drest) ∧
      buildRows data 0 = some rows ∧
      buildBars rows.1 [] = some bars ∧
      parseMarkerDates rows.2.1 = some mdates ∧
      L = { gantt_data := rows.1
            milestone_data := rows.2.1
            y_labels := rows.2.2.1
            y_pos_final := rows.2.2.2
            min_date := drest.foldl (fun a b => if dateLt b a then b else a) d0
            max_date := drest.foldl (fun a b => if dateLt a b then b else a) d0
            bars := bars.1
            legend :=
              ((bars.1.filter (fun b => b.show_legend)).map (fun b => b.status)) ++
                (if rows.2.1.isEmpty then [] else ["Milestones"])
            today_marker :=
              if dateLe (drest.foldl (fun a b => if dateLt b a then b else a) d0) today &&
                  dateLe today (drest.foldl (fun a b => if dateLt a b then b else a) d0) then
                some today
              else none } := by
  unfold visualize_roadmap at h
  rcases hd : allDates data with _ | dates
  · rw [hd] at h
    exact Option.noConfusion h
  rw [hd] at h
  simp only [Option.bind_eq_bind, Option.some_bind] at h
  rcases dates with _ | ⟨d0, drest⟩
  · exact Option.noConfusion h
  dsimp only at h
  rcases hr : buildRows data 0 with _ | rows
  · rw [hr] at h
    exact Option.noConfusion h
  rw [hr] at h
  simp only [Option.some_bind] at h
  rcases hb : buildBars rows.1 [] with _ | bars
  · rw [hb] at h
    exact Option.noConfusion h
  rw [hb] at h
  simp only [Option.some_bind] at h
  rcases hm : parseMarkerDates rows.2.1 with _ | mdates
  · rw [hm] at h
    exact Option.noConfusion h
  rw [hm] at h
  simp only [Option.some_bind] at h
  exact ⟨d0, drest, rows, bars, mdates, rfl, rfl, hb, hm, (Option.some.inj h).symm⟩

/--
**C7** (amended): the layout's legend contains exactly one entry per
distinct status value that actually appears among the stage bars, in
first-seen traversal order, followed by a `"Milestones"` entry that is
present exactly when the dataset has at least one milestone (NOT always);
and every bar's color is resolved through the closed status-to-color
table, with a status outside the table falling back to the neutral
default `"#95a5a6"` instead of failing.
-/
theorem legend_spec (data : Dataset) (today : DateT) (L : Layout)
    (h : visualize_roadmap data today = some L) :
    L.legend = firstSeen (L.gantt_data.map (fun t => t.status)) ++
      (if L.milestone_data.isEmpty then [] else ["Milestones"]) ∧
    (∀ b ∈ L.bars, b.color = statusColor b.status) ∧
    (∀ b ∈ L.bars,
      b.status ∉ ["completed", "in_progress", "planned", "delayed"] →
        b.color = "#95a5a6") := by
  obtain ⟨d0, drest, rows, bars, mdates, hd, hr, hb, hm, rfl⟩ :=
    visualize_roadmap_inv data today L h
  refine ⟨?_, ?_, ?_⟩
  · dsimp only
    rw [buildBars_legend rows.1 [] bars hb]
    rfl
  · dsimp only
    exact buildBars_colors rows.1 [] bars hb
  · dsimp only
    intro b hbb hunk
    rw [buildBars_colors rows.1 [] bars hb b hbb]
    exact statusColor_unknown b.status hunk

/-- Witness for **C7** at `fixture1`. -/
theorem legend_spec_witness :
    ∃ L, visualize_roadmap fixture1 ⟨2030, 1, 1⟩ = some L ∧
      (L.legend = firstSeen (L.gantt_data.map (fun t => t.status)) ++
        (if L.milestone_data.isEmpty then [] else ["Milestones"]) ∧
      (∀ b ∈ L.bars, b.color = statusColor b.status) ∧
      (∀ b ∈ L.bars,
        b.status ∉ ["completed", "in_progress", "planned", "delayed"] →
          b.color = "#95a5a6")) :=
  ⟨_, rfl, legend_spec fixture1 ⟨2030, 1, 1⟩ _ rfl⟩

/--
Counterexample to **C7** as stated: the milestone legend entry is not
always present — the milestone trace is added only when `milestone_data`
is nonempty (src/app/main.py line 305), so on `fixture6`, whose only
stage has no milestones, the legend is just `["in_progress"]` with no
`"Milestones"` entry.
-/
theorem legend_counterexample :
    (visualize_roadmap fixture6 ⟨2030, 1, 1⟩).map (fun l => l.legend) =
      some ["in_progress"] := by
  decide

/-! ### Layout rows -/

theorem buildPortions_spec (station : String) (ps : List (String × List Stage)) :
    ∀ y : ℚ,
      (buildPortions station ps y).2.2.1 = ps.map (fun p => "  " ++ p.1) ∧
      (buildPortions station ps y).2.2.2 = y + ps.length ∧
      (∀ t ∈ (buildPortions station ps y).1, ∃ j : Fin ps.length,
        ∃ st ∈ (ps.get j).2,
        t = ⟨"  " ++ (ps.get j).1, st.start, st.«end», st.status, station,
             (ps.get j).1, st.name, y + (j.1 : ℚ)⟩) ∧
      (∀ m ∈ (buildPortions station ps y).2.1, ∃ j : Fin ps.length,
        ∃ st ∈ (ps.get j).2, ∃ ml ∈ st.milestones,
        m = ⟨ml.name, ml.date, ml.status, "  " ++ (ps.get j).1, station,
             (ps.get j).1, st.name, y + (j.1 : ℚ)⟩) := by
  induction ps with
  | nil =>
    intro y
    refine ⟨rfl, by simp [buildPortions], ?_, ?_⟩ <;> intro x hx <;>
      exact absurd hx (List.not_mem_nil x)
  | cons p t ih =>
    intro y
    obtain ⟨ih1, ih2, ih3, ih4⟩ := ih (y + 1)
    refine ⟨?_, ?_, ?_, ?_⟩
    · simp only [buildPortions, List.map_cons]
      rw [ih1]
    · simp only [buildPortions]
      rw [ih2]
      simp only [List.length_cons]
      push_cast
      ring
    · intro tk htk
      simp only [buildPortions, List.mem_append] at htk
      rcases htk with hin | hin
      · obtain ⟨st, hst, rfl⟩ := List.mem_map.mp hin
        refine ⟨⟨0, by simp⟩, st, hst, ?_⟩
        simp
      · obtain ⟨j, st, hst, rfl⟩ := ih3 tk hin
        refine ⟨j.succ, st, hst, ?_⟩
        have hy : y + 1 + (j.1 : ℚ) = y + ((j.1 + 1 : Nat) : ℚ) := by
          push_cast
          ring
        simp only [List.get_eq_getElem, Fin.val_succ, List.getElem_cons_succ]
        rw [← hy]
    · intro mk hmk
      simp only [buildPortions, List.mem_append] at hmk
      rcases hmk with hin | hin
      · obtain ⟨st, hst, hmm⟩ := List.mem_flatMap.mp hin
        obtain ⟨ml, hml, rfl⟩ := List.mem_map.mp hmm
        refine ⟨⟨0, by simp⟩, st, hst, ml, hml, ?_⟩
        simp
      · obtain ⟨j, st, hst, ml, hml, rfl⟩ := ih4 mk hin
        refine ⟨j.succ, st, hst, ml, hml, ?_⟩
        have hy : y + 1 + (j.1 : ℚ) = y + ((j.1 + 1 : Nat) : ℚ) := by
          push_cast
          ring
        simp only [List.get_eq_getElem, Fin.val_succ, List.getElem_cons_succ]
        rw [← hy]

theorem buildRows_spec (data : Dataset) :
    ∀ y : ℚ, wellFormedB data = true →
      ∃ rows, buildRows data y = some rows ∧
        rows.2.2.1.length = stationsCount data + portionsCount data ∧
        rows.2.2.2 = y + (3 / 2) * stationsCount data + portionsCount data ∧
        (∀ t ∈ rows.1, ∃ s ∈ allStages data,
          t.station = s.1 ∧ t.portion = s.2.1 ∧ t.stage = s.2.2.name ∧
          t.start = s.2.2.start ∧ t.finish = s.2.2.«end» ∧ t.status = s.2.2.status ∧
          (t.station, t.portion, t.y_pos) ∈ portionRows data y) ∧
        (∀ m ∈ rows.2.1, ∃ s ∈ allStages data, ∃ ml ∈ s.2.2.milestones,
          m.station = s.1 ∧ m.portion = s.2.1 ∧ m.stage = s.2.2.name ∧
          m.name = ml.name ∧ m.date = ml.date ∧ m.status = ml.status ∧
          (m.station, m.portion, m.y_pos) ∈ portionRows data y) := by
  induction data with
  | nil =>
    intro y _
    refine ⟨([], [], [], y), rfl, by simp [stationsCount, portionsCount], ?_, ?_, ?_⟩
    · simp only [stationsCount, portionsCount]
      push_cast
      ring
    · intro t ht
      exact absurd ht (List.not_mem_nil t)
    · intro m hm
      exact absurd hm (List.not_mem_nil m)
  | cons entry rest ih =>
    intro y hwf
    obtain ⟨station, v⟩ := entry
    cases v with
    | scalar sv =>
      have hsch : station = "$schema" := by
        simp only [wellFormedB, Bool.and_eq_true, beq_iff_eq] at hwf
        exact hwf.1
      have hwf' : wellFormedB rest = true := by
        simp only [wellFormedB, Bool.and_eq_true] at hwf
        exact hwf.2
      subst hsch
      obtain ⟨rows, hr, h1, h2, h3, h4⟩ := ih y hwf'
      refine ⟨rows, ?_, ?_, ?_, ?_, ?_⟩
      · rw [show buildRows (("$schema", StationVal.scalar sv) :: rest) y =
            buildRows rest y from by simp [buildRows]]
        exact hr
      · simpa [stationsCount, portionsCount] using h1
      · simpa [stationsCount, portionsCount] using h2
      · intro t ht
        exact h3 t ht
      · intro m hm
        exact h4 m hm
    | mapping ps =>
      have hwf' : wellFormedB rest = true := by simpa [wellFormedB] using hwf
      by_cases hsch : station = "$schema"
      · subst hsch
        obtain ⟨rows, hr, h1, h2, h3, h4⟩ := ih y hwf'
        refine ⟨rows, ?_, ?_, ?_, ?_, ?_⟩
        · rw [show buildRows (("$schema", StationVal.mapping ps) :: rest) y =
              buildRows rest y from by simp [buildRows]]
          exact hr
        · simpa [stationsCount, portionsCount] using h1
        · simpa [stationsCount, portionsCount] using h2
        · intro t ht
          obtain ⟨s, hs, hrest⟩ := h3 t ht
          refine ⟨s, ?_, ?_⟩
          · rw [allStages_cons_mapping]
            simp only [if_pos rfl, List.nil_append]
            exact hs
          · rw [show portionRows (("$schema", StationVal.mapping ps) :: rest) y =
                portionRows rest y from by simp [portionRows]]
            exact hrest
        · intro m hm
          obtain ⟨s, hs, hrest⟩ := h4 m hm
          refine ⟨s, ?_, ?_⟩
          · rw [allStages_cons_mapping]
            simp only [if_pos rfl, List.nil_append]
            exact hs
          · rw [show portionRows (("$schema", StationVal.mapping ps) :: rest) y =
                portionRows rest y from by simp [portionRows]]
            exact hrest
      · obtain ⟨p1, p2, p3, p4⟩ := buildPortions_spec station ps (y + 1)
        obtain ⟨rows', hr', h1, h2, h3, h4⟩ :=
          ih ((buildPortions station ps (y + 1)).2.2.2 + 1 / 2) hwf'
        refine ⟨((buildPortions station ps (y + 1)).1 ++ rows'.1,
                 (buildPortions station ps (y + 1)).2.1 ++ rows'.2.1,
                 (("[" ++ station ++ "]") :: (buildPortions station ps (y + 1)).2.2.1) ++
                   rows'.2.2.1,
                 rows'.2.2.2), ?_, ?_, ?_, ?_, ?_⟩
        · simp only [buildRows, if_neg hsch]
          rw [hr']
          rfl
        · simp only [List.length_append, List.length_cons, p1, List.length_map]
          simp only [stationsCount, portionsCount, if_neg hsch]
          omega
        · rw [h2, p2]
          simp only [stationsCount, portionsCount, if_neg hsch]
          push_cast
          ring
        · intro t ht
          rcases List.mem_append.mp ht with hin | hin
          · obtain ⟨j, st, hst, rfl⟩ := p3 t hin
            refine ⟨(station, (ps.get j).1, st), ?_, rfl, rfl, rfl, rfl, rfl, rfl, ?_⟩
            · rw [allStages_cons_mapping, if_neg hsch]
              apply List.mem_append_left
              rw [List.mem_flatMap]
              exact ⟨ps.get j, List.get_mem ps j j.2, List.mem_map_of_mem _ hst⟩
            · unfold portionRows
              rw [if_neg hsch]
              apply List.mem_append_left
              rw [List.mem_map]
              refine ⟨(j.1, ps.get j), ?_, rfl⟩
              have hj : j.1 < ps.enum.length := by
                rw [List.enum_length]
                exact j.2
              have : ps.enum[j.1] = (j.1, ps[j.1]) := List.getElem_enum ps j.1 hj
              rw [show ((j.1 : Nat), ps.get j) = ps.enum[j.1] from by
                rw [this]
                rfl]
              exact List.getElem_mem hj
          · obtain ⟨s, hs, hf1, hf2, hf3, hf4, hf5, hf6, hrest⟩ := h3 t hin
            refine ⟨s, ?_, hf1, hf2, hf3, hf4, hf5, hf6, ?_⟩
            · rw [allStages_cons_mapping, if_neg hsch]
              exact List.mem_append_right _ hs
            · unfold portionRows
              rw [if_neg hsch]
              apply List.mem_append_right
              rw [p2] at hrest
              exact hrest
        · intro m hm
          rcases List.mem_append.mp hm with hin | hin
          · obtain ⟨j, st, hst, ml, hml, rfl⟩ := p4 m hin
            refine ⟨(station, (ps.get j).1, st), ?_, ml, hml, rfl, rfl, rfl, rfl, rfl, rfl, ?_⟩
            · rw [allStages_cons_mapping, if_neg hsch]
              apply List.mem_append_left
              rw [List.mem_flatMap]
              exact ⟨ps.get j, List.get_mem ps j j.2, List.mem_map_of_mem _ hst⟩
            · unfold portionRows
              rw [if_neg hsch]
              apply List.mem_append_left
              rw [List.mem_map]
              refine ⟨(j.1, ps.get j), ?_, rfl⟩
              have hj : j.1 < ps.enum.length := by
                rw [List.enum_length]
                exact j.2
              have : ps.enum[j.1] = (j.1, ps[j.1]) := List.getElem_enum ps j.1 hj
              rw [show ((j.1 : Nat), ps.get j) = ps.enum[j.1] from by
                rw [this]
                rfl]
              exact List.getElem_mem hj
          · obtain ⟨s, hs, ml, hml, hf1, hf2, hf3, hf4, hf5, hf6, hrest⟩ := h4 m hin
            refine ⟨s, ?_, ml, hml, hf1, hf2, hf3, hf4, hf5, hf6, ?_⟩
            · rw [allStages_cons_mapping, if_neg hsch]
              exact List.mem_append_right _ hs
            · unfold portionRows
              rw [if_neg hsch]
              apply List.mem_append_right
              rw [p2] at hrest
              exact hrest

theorem portionRows_station (data : Dataset) :
    ∀ y s p q, (s, p, q) ∈ portionRows data y →
      s ≠ "$schema" ∧ s ∈ data.map Prod.fst := by
  induction data with
  | nil =>
    intro y s p q hmem
    exact absurd hmem (List.not_mem_nil _)
  | cons entry rest ih =>
    obtain ⟨station, v⟩ := entry
    intro y s p q hmem
    cases v with
    | scalar sv =>
      obtain ⟨h1, h2⟩ := ih y s p q hmem
      exact ⟨h1, by simp only [List.map_cons, List.mem_cons]; exact Or.inr h2⟩
    | mapping ps =>
      by_cases hsch : station = "$schema"
      · rw [show portionRows ((station, StationVal.mapping ps) :: rest) y =
            portionRows rest y from by simp [portionRows, hsch]] at hmem
        obtain ⟨h1, h2⟩ := ih y s p q hmem
        exact ⟨h1, by simp only [List.map_cons, List.mem_cons]; exact Or.inr h2⟩
      · unfold portionRows at hmem
        rw [if_neg hsch] at hmem
        rcases List.mem_append.mp hmem with hin | hin
        · obtain ⟨pj, _, heq⟩ := List.mem_map.mp hin
          simp only [Prod.mk.injEq] at heq
          obtain ⟨rfl, -, -⟩ := heq
          exact ⟨hsch, by simp⟩
        · obtain ⟨h1, h2⟩ := ih _ s p q hin
          exact ⟨h1, by simp only [List.map_cons, List.mem_cons]; exact Or.inr h2⟩

theorem portionRows_functional (data : Dataset)
    (hnd : (data.map Prod.fst).Nodup)
    (hpnd : ∀ station ps, (station, StationVal.mapping ps) ∈ data →
      (ps.map Prod.fst).Nodup) :
    ∀ y s p q1 q2, (s, p, q1) ∈ portionRows data y →
      (s, p, q2) ∈ portionRows data y → q1 = q2 := by
  induction data with
  | nil =>
    intro y s p q1 q2 h1 _
    exact absurd h1 (List.not_mem_nil _)
  | cons entry rest ih =>
    obtain ⟨station, v⟩ := entry
    have hmc := hnd
    rw [List.map_cons] at hmc
    obtain ⟨hnotin, hnd'⟩ := List.nodup_cons.mp hmc
    have hpnd' : ∀ st ps, (st, StationVal.mapping ps) ∈ rest →
        (ps.map Prod.fst).Nodup :=
      fun st ps hm => hpnd st ps (List.mem_cons_of_mem _ hm)
    intro y s p q1 q2 h1 h2
    cases v with
    | scalar sv => exact ih hnd' hpnd' y s p q1 q2 h1 h2
    | mapping ps =>
      by_cases hsch : station = "$schema"
      · rw [show portionRows ((station, StationVal.mapping ps) :: rest) y =
            portionRows rest y from by simp [portionRows, hsch]] at h1 h2
        exact ih hnd' hpnd' y s p q1 q2 h1 h2
      · have hpsnd : (ps.map Prod.fst).Nodup :=
          hpnd station ps (List.mem_cons_self _ _)
        unfold portionRows at h1 h2
        rw [if_neg hsch] at h1 h2
        rcases List.mem_append.mp h1 with hin1 | hin1 <;>
          rcases List.mem_append.mp h2 with hin2 | hin2
        · obtain ⟨⟨i1, x1⟩, hm1, heq1⟩ := List.mem_map.mp hin1
          obtain ⟨⟨i2, x2⟩, hm2, heq2⟩ := List.mem_map.mp hin2
          simp only [Prod.mk.injEq] at heq1 heq2
          obtain ⟨-, hp1, hq1⟩ := heq1
          obtain ⟨-, hp2, hq2⟩ := heq2
          rw [List.mk_mem_enum_iff_getElem?] at hm1 hm2
          obtain ⟨hi1, hx1⟩ := List.getElem?_eq_some_iff.mp hm1
          obtain ⟨hi2, hx2⟩ := List.getElem?_eq_some_iff.mp hm2
          have hij : i1 = i2 := by
            have hb1 : i1 < (ps.map Prod.fst).length := by simpa using hi1
            have hb2 : i2 < (ps.map Prod.fst).length := by simpa using hi2
            have hmap1 : (ps.map Prod.fst).get ⟨i1, hb1⟩ = p := by
              rw [List.get_eq_getElem, List.getElem_map, hx1]
              exact hp1
            have hmap2 : (ps.map Prod.fst).get ⟨i2, hb2⟩ = p := by
              rw [List.get_eq_getElem, List.getElem_map, hx2]
              exact hp2
            have hfin := (List.Nodup.get_inj_iff hpsnd).mp (hmap1.trans hmap2.symm)
            exact congrArg Fin.val hfin
          rw [← hq1, ← hq2, hij]
        · obtain ⟨⟨i1, x1⟩, hm1, heq1⟩ := List.mem_map.mp hin1
          simp only [Prod.mk.injEq] at heq1
          obtain ⟨hst, -, -⟩ := heq1
          obtain ⟨-, hmem⟩ := portionRows_station rest _ s p q2 hin2
          rw [← hst] at hmem
          exact absurd hmem hnotin
        · obtain ⟨⟨i2, x2⟩, hm2, heq2⟩ := List.mem_map.mp hin2
          simp only [Prod.mk.injEq] at heq2
          obtain ⟨hst, -, -⟩ := heq2
          obtain ⟨-, hmem⟩ := portionRows_station rest _ s p q1 hin1
          rw [← hst] at hmem
          exact absurd hmem hnotin
        · exact ih hnd' hpnd' _ s p q1 q2 hin1 hin2

theorem portionKeysNodupB_spec (data : Dataset) (h : portionKeysNodupB data = true) :
    ∀ station ps, (station, StationVal.mapping ps) ∈ data →
      (ps.map Prod.fst).Nodup := by
  induction data with
  | nil =>
    intro station ps hmem
    exact absurd hmem (List.not_mem_nil _)
  | cons entry rest ih =>
    obtain ⟨st0, v⟩ := entry
    intro station ps hmem
    rcases List.mem_cons.mp hmem with heq | hmem'
    · cases v with
      | scalar sv => exact StationVal.noConfusion (congrArg Prod.snd heq)
      | mapping ps0 =>
        have hv : StationVal.mapping ps = StationVal.mapping ps0 :=
          congrArg Prod.snd heq
        obtain rfl : ps = ps0 := StationVal.mapping.inj hv
        simp only [portionKeysNodupB, Bool.and_eq_true, decide_eq_true_eq] at h
        exact h.1
    · cases v with
      | scalar sv => exact ih h station ps hmem'
      | mapping ps0 =>
        simp only [portionKeysNodupB, Bool.and_eq_true] at h
        exact ih h.2 station ps hmem'

/--
**C5**: a successful layout gives each station one header label row
advancing the row counter by 1, gives each portion exactly one row that
carries all of that portion's stage bars and milestone markers, advances
the counter by an extra half row after each station's portions, and the
row-label list has exactly (number of stations) + (number of portions)
entries.  Row assignment is captured by `portionRows`; uniqueness of each
portion's row needs the (Python-dict-guaranteed) distinctness of keys.
-/
theorem layout_rows_spec (data : Dataset) (today : DateT) (L : Layout)
    (h : visualize_roadmap data today = some L)
    (hwf : wellFormedB data = true)
    (hnd : stationKeysNodupB data = true)
    (hpnd : portionKeysNodupB data = true) :
    L.y_labels.length = stationsCount data + portionsCount data ∧
    L.y_pos_final = (3 / 2) * stationsCount data + portionsCount data ∧
    (∀ t ∈ L.gantt_data, (t.station, t.portion, t.y_pos) ∈ portionRows data 0) ∧
    (∀ m ∈ L.milestone_data, (m.station, m.portion, m.y_pos) ∈ portionRows data 0) ∧
    (∀ t1 ∈ L.gantt_data, ∀ t2 ∈ L.gantt_data,
      t1.station = t2.station → t1.portion = t2.portion → t1.y_pos = t2.y_pos) ∧
    (∀ t ∈ L.gantt_data, ∀ m ∈ L.milestone_data,
      t.station = m.station → t.portion = m.portion → t.y_pos = m.y_pos) := by
  obtain ⟨d0, drest, rows, bars, mdates, hd, hr, hb, hm, rfl⟩ :=
    visualize_roadmap_inv data today L h
  obtain ⟨rows', hr', hlab, hfin, hbars, hmarks⟩ := buildRows_spec data 0 hwf
  obtain rfl : rows = rows' := Option.some.inj (hr.symm.trans hr')
  have hfun := portionRows_functional data (of_decide_eq_true hnd)
    (portionKeysNodupB_spec data hpnd)
  refine ⟨hlab, ?_, ?_, ?_, ?_, ?_⟩
  · dsimp only
    rw [hfin]
    ring
  · intro t ht
    obtain ⟨s, _, _, _, _, _, _, _, hrow⟩ := hbars t ht
    exact hrow
  · intro m hm'
    obtain ⟨s, _, _, _, _, _, _, _, _, _, hrow⟩ := hmarks m hm'
    exact hrow
  · intro t1 ht1 t2 ht2 hst hpo
    obtain ⟨s1, _, _, _, _, _, _, _, hrow1⟩ := hbars t1 ht1
    obtain ⟨s2, _, _, _, _, _, _, _, hrow2⟩ := hbars t2 ht2
    rw [← hst, ← hpo] at hrow2
    exact hfun 0 t1.station t1.portion t1.y_pos t2.y_pos hrow1 hrow2
  · intro t ht m hm' hst hpo
    obtain ⟨s1, _, _, _, _, _, _, _, hrow1⟩ := hbars t ht
    obtain ⟨s2, _, _, _, _, _, _, _, _, _, hrow2⟩ := hmarks m hm'
    rw [← hst, ← hpo] at hrow2
    exact hfun 0 t.station t.portion t.y_pos m.y_pos hrow1 hrow2

/-- Witness for **C5** at `fixture5` (two stations, three portions). -/
theorem layout_rows_spec_witness :
    (wellFormedB fixture5 = true ∧ stationKeysNodupB fixture5 = true ∧
      portionKeysNodupB fixture5 = true) ∧
    ∃ L, visualize_roadmap fixture5 ⟨2030, 1, 1⟩ = some L ∧
      (L.y_labels.length = stationsCount fixture5 + portionsCount fixture5 ∧
      L.y_pos_final = (3 / 2) * stationsCount fixture5 + portionsCount fixture5 ∧
      (∀ t ∈ L.gantt_data, (t.station, t.portion, t.y_pos) ∈ portionRows fixture5 0) ∧
      (∀ m ∈ L.milestone_data,
        (m.station, m.portion, m.y_pos) ∈ portionRows fixture5 0) ∧
      (∀ t1 ∈ L.gantt_data, ∀ t2 ∈ L.gantt_data,
        t1.station = t2.station → t1.portion = t2.portion → t1.y_pos = t2.y_pos) ∧
      (∀ t ∈ L.gantt_data, ∀ m ∈ L.milestone_data,
        t.station = m.station → t.portion = m.portion → t.y_pos = m.y_pos)) :=
  ⟨⟨by decide, by decide, by decide⟩,
    ⟨_, rfl, layout_rows_spec fixture5 ⟨2030, 1, 1⟩ _ rfl (by decide) (by decide)
      (by decide)⟩⟩

/-! ### The layout requires a stage -/

theorem allDatesStages_spec (stages : List Stage)
    (h : ∀ st ∈ stages, (parse_date st.start).isSome = true ∧
      (parse_date st.«end»).isSome = true) :
    ∃ l, allDatesStages stages = some l ∧ l.length = 2 * stages.length := by
  induction stages with
  | nil => exact ⟨[], rfl, rfl⟩
  | cons st t ih =>
    obtain ⟨hs, he⟩ := h st (List.mem_cons_self st t)
    obtain ⟨ds, hds⟩ := Option.isSome_iff_exists.mp hs
    obtain ⟨de, hde⟩ := Option.isSome_iff_exists.mp he
    obtain ⟨l, hl, hlen⟩ := ih (fun x hx => h x (List.mem_cons_of_mem st hx))
    refine ⟨ds :: de :: l, ?_, ?_⟩
    · simp only [allDatesStages, hds, hde, Option.bind_eq_bind, Option.some_bind, hl]
    · simp only [List.length_cons, hlen]
      omega

theorem allDatesPortions_spec (ps : List (String × List Stage))
    (h : ∀ p ∈ ps, ∀ st ∈ p.2, (parse_date st.start).isSome = true ∧
      (parse_date st.«end»).isSome = true) :
    ∃ l, allDatesPortions ps = some l ∧
      l.length = 2 * ((ps.map (fun p => p.2.length)).sum) := by
  induction ps with
  | nil => exact ⟨[], rfl, rfl⟩
  | cons p t ih =>
    obtain ⟨l1, hl1, hlen1⟩ := allDatesStages_spec p.2
      (fun st hst => h p (List.mem_cons_self p t) st hst)
    obtain ⟨l2, hl2, hlen2⟩ := ih (fun q hq st hst => h q (List.mem_cons_of_mem p hq) st hst)
    refine ⟨l1 ++ l2, ?_, ?_⟩
    · simp only [allDatesPortions, hl1, hl2, Option.bind_eq_bind, Option.some_bind]
    · simp only [List.length_append, hlen1, hlen2, List.map_cons, List.sum_cons]
      ring

theorem allDates_spec (data : Dataset) (hwf : wellFormedB data = true)
    (hsd : stageDatesOkB data = true) :
    ∃ l, allDates data = some l ∧ l.length = 2 * (allStages data).length := by
  induction data with
  | nil => exact ⟨[], rfl, rfl⟩
  | cons entry rest ih =>
    obtain ⟨station, v⟩ := entry
    cases v with
    | scalar sv =>
      have hsch : station = "$schema" := by
        simp only [wellFormedB, Bool.and_eq_true, beq_iff_eq] at hwf
        exact hwf.1
      have hwf' : wellFormedB rest = true := by
        simp only [wellFormedB, Bool.and_eq_true] at hwf
        exact hwf.2
      have hsd' : stageDatesOkB rest = true := by
        unfold stageDatesOkB at hsd ⊢
        simpa [allStages] using hsd
      obtain ⟨l, hl, hlen⟩ := ih hwf' hsd'
      subst hsch
      exact ⟨l, by rw [show allDates (("$schema", StationVal.scalar sv) :: rest) =
        allDates rest from by simp [allDates]]; exact hl, by rw [allStages_cons_scalar]; exact hlen⟩
    | mapping ps =>
      have hwf' : wellFormedB rest = true := by simpa [wellFormedB] using hwf
      by_cases hsch : station = "$schema"
      · have hsd' : stageDatesOkB rest = true := by
          unfold stageDatesOkB at hsd ⊢
          rw [allStages_cons_mapping, if_pos hsch] at hsd
          simpa using hsd
        obtain ⟨l, hl, hlen⟩ := ih hwf' hsd'
        subst hsch
        refine ⟨l, ?_, ?_⟩
        · rw [show allDates (("$schema", StationVal.mapping ps) :: rest) =
            allDates rest from by simp [allDates]]
          exact hl
        · rw [allStages_cons_mapping, if_pos rfl, List.nil_append]
          exact hlen
      · have hsplit : stageDatesOkB rest = true ∧
            ∀ p ∈ ps, ∀ st ∈ p.2, (parse_date st.start).isSome = true ∧
              (parse_date st.«end»).isSome = true := by
          unfold stageDatesOkB at hsd
          rw [allStages_cons_mapping, if_neg hsch, List.all_append] at hsd
          rw [Bool.and_eq_true] at hsd
          constructor
          · exact hsd.2
          · intro p hp st hst
            have h1 := hsd.1
            rw [List.all_eq_true] at h1
            have := h1 (station, p.1, st) (by
              rw [List.mem_flatMap]
              exact ⟨p, hp, List.mem_map_of_mem _ hst⟩)
            rw [Bool.and_eq_true] at this
            exact this
        obtain ⟨l1, hl1, hlen1⟩ := allDatesPortions_spec ps hsplit.2
        obtain ⟨l2, hl2, hlen2⟩ := ih hwf' hsplit.1
        refine ⟨l1 ++ l2, ?_, ?_⟩
        · simp only [allDates, if_neg hsch, hl1, hl2, Option.bind_eq_bind,
            Option.some_bind]
        · rw [allStages_cons_mapping, if_neg hsch, List.length_append,
            List.length_append, hlen1, hlen2]
          have : (ps.flatMap (fun p => p.2.map (fun st => (station, p.1, st)))).length =
              (ps.map (fun p => p.2.length)).sum := by
            rw [List.length_flatMap]
            refine congrArg List.sum (List.map_congr_left ?_)
            intro p _
            simp
          rw [this]
          ring

theorem buildBars_total (ts : List GanttTask)
    (h : ∀ t ∈ ts, (parse_date t.start).isSome = true ∧
      (parse_date t.finish).isSome = true) :
    ∀ seen, ∃ res, buildBars ts seen = some res := by
  induction ts with
  | nil => intro seen; exact ⟨([], seen), rfl⟩
  | cons t ts ih =>
    intro seen
    obtain ⟨hs, he⟩ := h t (List.mem_cons_self t ts)
    obtain ⟨d1, hd1⟩ := Option.isSome_iff_exists.mp hs
    obtain ⟨d2, hd2⟩ := Option.isSome_iff_exists.mp he
    obtain ⟨res', hres'⟩ := ih (fun x hx => h x (List.mem_cons_of_mem t hx))
      (if decide (t.status ∈ seen) = true then seen else t.status :: seen)
    refine ⟨((⟨t.station, t.portion, t.stage, t.status, statusColor t.status,
        t.y_pos, !decide (t.status ∈ seen)⟩ : BarTrace) :: res'.1, res'.2), ?_⟩
    simp only [buildBars, hd1, hd2, Option.bind_eq_bind, Option.some_bind, hres']

theorem parseMarkerDates_total (ms : List MilestoneMark)
    (h : ∀ m ∈ ms, (parse_date m.date).isSome = true) :
    ∃ l, parseMarkerDates ms = some l := by
  induction ms with
  | nil => exact ⟨[], rfl⟩
  | cons m t ih =>
    obtain ⟨d, hd⟩ := Option.isSome_iff_exists.mp (h m (List.mem_cons_self m t))
    obtain ⟨l, hl⟩ := ih (fun x hx => h x (List.mem_cons_of_mem m hx))
    exact ⟨d :: l, by simp only [parseMarkerDates, hd, Option.bind_eq_bind,
      Option.some_bind, hl]⟩

/--
**C9**: the layout requires at least one stage.  With zero stages the
`all_dates` list is empty and `min()` raises (the run produces no
layout); with at least one stage that error branch is unreachable and
the layout is produced.
-/
theorem visualize_requires_stage (data : Dataset) (today : DateT)
    (hwf : wellFormedB data = true) (hsd : stageDatesOkB data = true)
    (hmd : milestoneDatesOkB data = true) :
    visualize_roadmap data today = none ↔ allStages data = [] := by
  obtain ⟨l, hl, hlen⟩ := allDates_spec data hwf hsd
  constructor
  · intro hnone
    by_contra hne
    have hlne : l ≠ [] := by
      intro h0
      rw [h0] at hlen
      simp only [List.length_nil] at hlen
      have : (allStages data).length = 0 := by omega
      exact hne (List.length_eq_zero.mp this)
    rcases l with _ | ⟨d0, drest⟩
    · exact hlne rfl
    obtain ⟨rows, hr, _, _, hbars_mem, hmarks_mem⟩ := buildRows_spec data 0 hwf
    have hsd' := hsd
    unfold stageDatesOkB at hsd'
    rw [List.all_eq_true] at hsd'
    have hmd' := hmd
    unfold milestoneDatesOkB at hmd'
    rw [List.all_eq_true] at hmd'
    obtain ⟨bars, hb⟩ := buildBars_total rows.1 (by
      intro t ht
      obtain ⟨s, hs, _, _, _, hf4, hf5, _, _⟩ := hbars_mem t ht
      have := hsd' s hs
      rw [Bool.and_eq_true] at this
      rw [hf4, hf5]
      exact this) []
    obtain ⟨mdates, hmda⟩ := parseMarkerDates_total rows.2.1 (by
      intro m hm
      obtain ⟨s, hs, ml, hml, _, _, _, _, hdate, _, _⟩ := hmarks_mem m hm
      have hhit : (⟨s.1, s.2.1, s.2.2.name, ml.name, ml.date, ml.status⟩ :
          MilestoneHit) ∈ allHits data := by
        unfold allHits
        rw [List.mem_flatMap]
        exact ⟨s, hs, List.mem_map_of_mem _ hml⟩
      have := hmd' _ hhit
      rw [hdate]
      exact this)
    have hsome : visualize_roadmap data today ≠ none := by
      unfold visualize_roadmap
      rw [hl]
      simp only [Option.bind_eq_bind, Option.some_bind]
      rw [hr]
      simp only [Option.some_bind]
      rw [hb]
      simp only [Option.some_bind]
      rw [hmda]
      simp only [Option.some_bind]
      intro hx
      exact Option.noConfusion hx
    exact hsome hnone
  · intro hempty
    obtain rfl : l = [] := by
      rw [hempty] at hlen
      simp only [List.length_nil] at hlen
      exact List.length_eq_zero.mp (by omega)
    unfold visualize_roadmap
    rw [hl]
    rfl

/-- Witness for **C9** at `fixture7` (a station and a portion, zero
stages): the layout run fails. -/
theorem visualize_requires_stage_witness :
    (wellFormedB fixture7 = true ∧ stageDatesOkB fixture7 = true ∧
      milestoneDatesOkB fixture7 = true) ∧
    visualize_roadmap fixture7 ⟨2024, 6, 1⟩ = none :=
  ⟨⟨by decide, by decide, by decide⟩,
    (visualize_requires_stage fixture7 ⟨2024, 6, 1⟩ (by decide) (by decide)
      (by decide)).mpr (by decide)⟩

end Seap
